import Mathlib

/-!
Verification development for the spellfix text-normalization pipeline
(`spellfix.py`).  The pipeline's functions are embedded shallowly over
`List Char` / `String`:

* character classes follow Python `re` semantics (the `\s` class is the
  full Unicode whitespace set used by Python; the letter/digit classes of
  the source patterns are the literal ASCII ranges `[A-Za-z]`, `[0-9]`,
  `[A-Za-z0-9]` they are written with; `\w` is modeled as ASCII
  alphanumeric or underscore, which agrees with Python on ASCII text and
  on the private-use placeholder character U+E000);
* `apply_misspellings_only` is embedded directly, with Python's slice
  semantics (negative and out-of-range bounds) made explicit and
  `str.lower` modeled in full (the Unicode simple lowercase mappings,
  the one-to-many İ mapping, and the contextual final-sigma rule);
* the regex substitutions of `safe_spacing_cleanup` and of the paragraph
  splitter are embedded as character-level scanners that realize the
  leftmost, non-overlapping, greedy semantics of the source patterns;
* the protection patterns of `protect` are embedded with a small
  backtracking regex engine mirroring Python's leftmost/greedy matching.
-/

namespace Spellfix

/-- Python `\s` for `str` patterns: the Unicode whitespace set. -/
def isPySpace (c : Char) : Bool :=
  c == ' ' || c == '\t' || c == '\n' || c == '\r' || c == '\x0b' || c == '\x0c' ||
  c == '\x1c' || c == '\x1d' || c == '\x1e' || c == '\x1f' || c == '\u0085' ||
  c == '\u00A0' || c == '\u1680' || ('\u2000' ≤ c && c ≤ '\u200A') ||
  c == '\u2028' || c == '\u2029' || c == '\u202F' || c == '\u205F' || c == '\u3000'

/-- Python `\w` on ASCII (and on the placeholder char U+E000, which is not
a word character in Python either): `[A-Za-z0-9_]`. -/
def isWordChar (c : Char) : Bool :=
  c.isAlphanum || c == '_'

/-- The sentence punctuation class `[,.;:!?]` of the spacing rules. -/
def isPunctCh (c : Char) : Bool :=
  c == ',' || c == '.' || c == ';' || c == ':' || c == '!' || c == '?'

/-- The class `[A-Za-z0-9]`. -/
def isAlnumCh (c : Char) : Bool :=
  c.isAlphanum

/-- The class `[ \t]` of `MULTISPACE_RE`. -/
def isSpTab (c : Char) : Bool :=
  c == ' ' || c == '\t'

/-- The simple lowercase mappings of Unicode (as CPython's `str.lower`
uses them), compressed into range rules `(stride2, lo, hi, delta)`: every
code point in `[lo, hi]` — only those at even distance from `lo` when
`stride2` is true — lowers to itself plus `delta`. -/
def lowerDeltaRules : List (Bool × Nat × Nat × Int) :=
  [(false, 0x41, 0x5A, 32), (false, 0xC0, 0xD6, 32), (false, 0xD8, 0xDE, 32),
   (true, 0x100, 0x12E, 1), (true, 0x132, 0x136, 1), (true, 0x139, 0x147, 1),
   (true, 0x14A, 0x176, 1), (false, 0x178, 0x178, -121), (true, 0x179, 0x17D, 1),
   (false, 0x181, 0x181, 210), (true, 0x182, 0x184, 1), (false, 0x186, 0x186, 206),
   (false, 0x187, 0x187, 1), (false, 0x189, 0x18A, 205), (false, 0x18B, 0x18B, 1),
   (false, 0x18E, 0x18E, 79), (false, 0x18F, 0x18F, 202), (false, 0x190, 0x190, 203),
   (false, 0x191, 0x191, 1), (false, 0x193, 0x193, 205), (false, 0x194, 0x194, 207),
   (false, 0x196, 0x196, 211), (false, 0x197, 0x197, 209), (false, 0x198, 0x198, 1),
   (false, 0x19C, 0x19C, 211), (false, 0x19D, 0x19D, 213), (false, 0x19F, 0x19F, 214),
   (true, 0x1A0, 0x1A4, 1), (false, 0x1A6, 0x1A6, 218), (false, 0x1A7, 0x1A7, 1),
   (false, 0x1A9, 0x1A9, 218), (false, 0x1AC, 0x1AC, 1), (false, 0x1AE, 0x1AE, 218),
   (false, 0x1AF, 0x1AF, 1), (false, 0x1B1, 0x1B2, 217), (true, 0x1B3, 0x1B5, 1),
   (false, 0x1B7, 0x1B7, 219), (false, 0x1B8, 0x1B8, 1), (false, 0x1BC, 0x1BC, 1),
   (false, 0x1C4, 0x1C4, 2), (false, 0x1C5, 0x1C5, 1), (false, 0x1C7, 0x1C7, 2),
   (false, 0x1C8, 0x1C8, 1), (false, 0x1CA, 0x1CA, 2), (true, 0x1CB, 0x1DB, 1),
   (true, 0x1DE, 0x1EE, 1), (false, 0x1F1, 0x1F1, 2), (true, 0x1F2, 0x1F4, 1),
   (false, 0x1F6, 0x1F6, -97), (false, 0x1F7, 0x1F7, -56), (true, 0x1F8, 0x21E, 1),
   (false, 0x220, 0x220, -130), (true, 0x222, 0x232, 1), (false, 0x23A, 0x23A, 10795),
   (false, 0x23B, 0x23B, 1), (false, 0x23D, 0x23D, -163), (false, 0x23E, 0x23E, 10792),
   (false, 0x241, 0x241, 1), (false, 0x243, 0x243, -195), (false, 0x244, 0x244, 69),
   (false, 0x245, 0x245, 71), (true, 0x246, 0x24E, 1), (true, 0x370, 0x372, 1),
   (false, 0x376, 0x376, 1), (false, 0x37F, 0x37F, 116), (false, 0x386, 0x386, 38),
   (false, 0x388, 0x38A, 37), (false, 0x38C, 0x38C, 64), (false, 0x38E, 0x38F, 63),
   (false, 0x391, 0x3A1, 32), (false, 0x3A3, 0x3AB, 32), (false, 0x3CF, 0x3CF, 8),
   (true, 0x3D8, 0x3EE, 1), (false, 0x3F4, 0x3F4, -60), (false, 0x3F7, 0x3F7, 1),
   (false, 0x3F9, 0x3F9, -7), (false, 0x3FA, 0x3FA, 1), (false, 0x3FD, 0x3FF, -130),
   (false, 0x400, 0x40F, 80), (false, 0x410, 0x42F, 32), (true, 0x460, 0x480, 1),
   (true, 0x48A, 0x4BE, 1), (false, 0x4C0, 0x4C0, 15), (true, 0x4C1, 0x4CD, 1),
   (true, 0x4D0, 0x52E, 1), (false, 0x531, 0x556, 48), (false, 0x10A0, 0x10C5, 7264),
   (false, 0x10C7, 0x10C7, 7264), (false, 0x10CD, 0x10CD, 7264), (false, 0x13A0, 0x13EF, 38864),
   (false, 0x13F0, 0x13F5, 8), (false, 0x1C90, 0x1CBA, -3008), (false, 0x1CBD, 0x1CBF, -3008),
   (true, 0x1E00, 0x1E94, 1), (false, 0x1E9E, 0x1E9E, -7615), (true, 0x1EA0, 0x1EFE, 1),
   (false, 0x1F08, 0x1F0F, -8), (false, 0x1F18, 0x1F1D, -8), (false, 0x1F28, 0x1F2F, -8),
   (false, 0x1F38, 0x1F3F, -8), (false, 0x1F48, 0x1F4D, -8), (true, 0x1F59, 0x1F5F, -8),
   (false, 0x1F68, 0x1F6F, -8), (false, 0x1F88, 0x1F8F, -8), (false, 0x1F98, 0x1F9F, -8),
   (false, 0x1FA8, 0x1FAF, -8), (false, 0x1FB8, 0x1FB9, -8), (false, 0x1FBA, 0x1FBB, -74),
   (false, 0x1FBC, 0x1FBC, -9), (false, 0x1FC8, 0x1FCB, -86), (false, 0x1FCC, 0x1FCC, -9),
   (false, 0x1FD8, 0x1FD9, -8), (false, 0x1FDA, 0x1FDB, -100), (false, 0x1FE8, 0x1FE9, -8),
   (false, 0x1FEA, 0x1FEB, -112), (false, 0x1FEC, 0x1FEC, -7), (false, 0x1FF8, 0x1FF9, -128),
   (false, 0x1FFA, 0x1FFB, -126), (false, 0x1FFC, 0x1FFC, -9), (false, 0x2126, 0x2126, -7517),
   (false, 0x212A, 0x212A, -8383), (false, 0x212B, 0x212B, -8262), (false, 0x2132, 0x2132, 28),
   (false, 0x2160, 0x216F, 16), (false, 0x2183, 0x2183, 1), (false, 0x24B6, 0x24CF, 26),
   (false, 0x2C00, 0x2C2F, 48), (false, 0x2C60, 0x2C60, 1), (false, 0x2C62, 0x2C62, -10743),
   (false, 0x2C63, 0x2C63, -3814), (false, 0x2C64, 0x2C64, -10727), (true, 0x2C67, 0x2C6B, 1),
   (false, 0x2C6D, 0x2C6D, -10780), (false, 0x2C6E, 0x2C6E, -10749),
   (false, 0x2C6F, 0x2C6F, -10783), (false, 0x2C70, 0x2C70, -10782), (false, 0x2C72, 0x2C72, 1),
   (false, 0x2C75, 0x2C75, 1), (false, 0x2C7E, 0x2C7F, -10815), (true, 0x2C80, 0x2CE2, 1),
   (true, 0x2CEB, 0x2CED, 1), (false, 0x2CF2, 0x2CF2, 1), (true, 0xA640, 0xA66C, 1),
   (true, 0xA680, 0xA69A, 1), (true, 0xA722, 0xA72E, 1), (true, 0xA732, 0xA76E, 1),
   (true, 0xA779, 0xA77B, 1), (false, 0xA77D, 0xA77D, -35332), (true, 0xA77E, 0xA786, 1),
   (false, 0xA78B, 0xA78B, 1), (false, 0xA78D, 0xA78D, -42280), (true, 0xA790, 0xA792, 1),
   (true, 0xA796, 0xA7A8, 1), (false, 0xA7AA, 0xA7AA, -42308), (false, 0xA7AB, 0xA7AB, -42319),
   (false, 0xA7AC, 0xA7AC, -42315), (false, 0xA7AD, 0xA7AD, -42305),
   (false, 0xA7AE, 0xA7AE, -42308), (false, 0xA7B0, 0xA7B0, -42258),
   (false, 0xA7B1, 0xA7B1, -42282), (false, 0xA7B2, 0xA7B2, -42261), (false, 0xA7B3, 0xA7B3, 928),
   (true, 0xA7B4, 0xA7C2, 1), (false, 0xA7C4, 0xA7C4, -48), (false, 0xA7C5, 0xA7C5, -42307),
   (false, 0xA7C6, 0xA7C6, -35384), (true, 0xA7C7, 0xA7C9, 1), (false, 0xA7D0, 0xA7D0, 1),
   (true, 0xA7D6, 0xA7D8, 1), (false, 0xA7F5, 0xA7F5, 1), (false, 0xFF21, 0xFF3A, 32),
   (false, 0x10400, 0x10427, 40), (false, 0x104B0, 0x104D3, 40), (true, 0x10570, 0x10594, 39),
   (true, 0x10571, 0x10579, 39), (true, 0x1057D, 0x10589, 39), (true, 0x1058D, 0x10591, 39),
   (false, 0x10595, 0x10595, 39), (false, 0x10C80, 0x10CB2, 64), (false, 0x118A0, 0x118BF, 32),
   (false, 0x16E40, 0x16E5F, 32), (false, 0x1E900, 0x1E921, 34)]

/-- Code points that are cased and not case-ignorable: the characters at
which CPython's Final_Sigma context scans stop with a positive answer. -/
def casedStopRanges : List (Nat × Nat) :=
  [(0x41, 0x5A), (0x61, 0x7A), (0xAA, 0xAA), (0xB5, 0xB5), (0xBA, 0xBA), (0xC0, 0xD6),
   (0xD8, 0xF6), (0xF8, 0x1BA), (0x1BC, 0x1BF), (0x1C4, 0x293), (0x295, 0x2AF), (0x370, 0x373),
   (0x376, 0x377), (0x37B, 0x37D), (0x37F, 0x37F), (0x386, 0x386), (0x388, 0x38A), (0x38C, 0x38C),
   (0x38E, 0x3A1), (0x3A3, 0x3F5), (0x3F7, 0x481), (0x48A, 0x52F), (0x531, 0x556), (0x560, 0x588),
   (0x10A0, 0x10C5), (0x10C7, 0x10C7), (0x10CD, 0x10CD), (0x10D0, 0x10FA), (0x10FD, 0x10FF),
   (0x13A0, 0x13F5), (0x13F8, 0x13FD), (0x1C80, 0x1C88), (0x1C90, 0x1CBA), (0x1CBD, 0x1CBF),
   (0x1D00, 0x1D2B), (0x1D6B, 0x1D77), (0x1D79, 0x1D9A), (0x1E00, 0x1F15), (0x1F18, 0x1F1D),
   (0x1F20, 0x1F45), (0x1F48, 0x1F4D), (0x1F50, 0x1F57), (0x1F59, 0x1F59), (0x1F5B, 0x1F5B),
   (0x1F5D, 0x1F5D), (0x1F5F, 0x1F7D), (0x1F80, 0x1FB4), (0x1FB6, 0x1FBC), (0x1FBE, 0x1FBE),
   (0x1FC2, 0x1FC4), (0x1FC6, 0x1FCC), (0x1FD0, 0x1FD3), (0x1FD6, 0x1FDB), (0x1FE0, 0x1FEC),
   (0x1FF2, 0x1FF4), (0x1FF6, 0x1FFC), (0x2102, 0x2102), (0x2107, 0x2107), (0x210A, 0x2113),
   (0x2115, 0x2115), (0x2119, 0x211D), (0x2124, 0x2124), (0x2126, 0x2126), (0x2128, 0x2128),
   (0x212A, 0x212D), (0x212F, 0x2134), (0x2139, 0x2139), (0x213C, 0x213F), (0x2145, 0x2149),
   (0x214E, 0x214E), (0x2160, 0x217F), (0x2183, 0x2184), (0x24B6, 0x24E9), (0x2C00, 0x2C7B),
   (0x2C7E, 0x2CE4), (0x2CEB, 0x2CEE), (0x2CF2, 0x2CF3), (0x2D00, 0x2D25), (0x2D27, 0x2D27),
   (0x2D2D, 0x2D2D), (0xA640, 0xA66D), (0xA680, 0xA69B), (0xA722, 0xA76F), (0xA771, 0xA787),
   (0xA78B, 0xA78E), (0xA790, 0xA7CA), (0xA7D0, 0xA7D1), (0xA7D3, 0xA7D3), (0xA7D5, 0xA7D9),
   (0xA7F5, 0xA7F6), (0xA7FA, 0xA7FA), (0xAB30, 0xAB5A), (0xAB60, 0xAB68), (0xAB70, 0xABBF),
   (0xFB00, 0xFB06), (0xFB13, 0xFB17), (0xFF21, 0xFF3A), (0xFF41, 0xFF5A), (0x10400, 0x1044F),
   (0x104B0, 0x104D3), (0x104D8, 0x104FB), (0x10570, 0x1057A), (0x1057C, 0x1058A),
   (0x1058C, 0x10592), (0x10594, 0x10595), (0x10597, 0x105A1), (0x105A3, 0x105B1),
   (0x105B3, 0x105B9), (0x105BB, 0x105BC), (0x10C80, 0x10CB2), (0x10CC0, 0x10CF2),
   (0x118A0, 0x118DF), (0x16E40, 0x16E7F), (0x1D400, 0x1D454), (0x1D456, 0x1D49C),
   (0x1D49E, 0x1D49F), (0x1D4A2, 0x1D4A2), (0x1D4A5, 0x1D4A6), (0x1D4A9, 0x1D4AC),
   (0x1D4AE, 0x1D4B9), (0x1D4BB, 0x1D4BB), (0x1D4BD, 0x1D4C3), (0x1D4C5, 0x1D505),
   (0x1D507, 0x1D50A), (0x1D50D, 0x1D514), (0x1D516, 0x1D51C), (0x1D51E, 0x1D539),
   (0x1D53B, 0x1D53E), (0x1D540, 0x1D544), (0x1D546, 0x1D546), (0x1D54A, 0x1D550),
   (0x1D552, 0x1D6A5), (0x1D6A8, 0x1D6C0), (0x1D6C2, 0x1D6DA), (0x1D6DC, 0x1D6FA),
   (0x1D6FC, 0x1D714), (0x1D716, 0x1D734), (0x1D736, 0x1D74E), (0x1D750, 0x1D76E),
   (0x1D770, 0x1D788), (0x1D78A, 0x1D7A8), (0x1D7AA, 0x1D7C2), (0x1D7C4, 0x1D7CB),
   (0x1DF00, 0x1DF09), (0x1DF0B, 0x1DF1E), (0x1E900, 0x1E943), (0x1F130, 0x1F149),
   (0x1F150, 0x1F169), (0x1F170, 0x1F189)]

/-- Case-ignorable code points: skipped by CPython's Final_Sigma context
scans. -/
def caseIgnorableRanges : List (Nat × Nat) :=
  [(0x27, 0x27), (0x2E, 0x2E), (0x3A, 0x3A), (0x5E, 0x5E), (0x60, 0x60), (0xA8, 0xA8),
   (0xAD, 0xAD), (0xAF, 0xAF), (0xB4, 0xB4), (0xB7, 0xB8), (0x2B0, 0x36F), (0x374, 0x375),
   (0x37A, 0x37A), (0x384, 0x385), (0x387, 0x387), (0x483, 0x489), (0x559, 0x559), (0x55F, 0x55F),
   (0x591, 0x5BD), (0x5BF, 0x5BF), (0x5C1, 0x5C2), (0x5C4, 0x5C5), (0x5C7, 0x5C7), (0x5F4, 0x5F4),
   (0x600, 0x605), (0x610, 0x61A), (0x61C, 0x61C), (0x640, 0x640), (0x64B, 0x65F), (0x670, 0x670),
   (0x6D6, 0x6DD), (0x6DF, 0x6E8), (0x6EA, 0x6ED), (0x70F, 0x70F), (0x711, 0x711), (0x730, 0x74A),
   (0x7A6, 0x7B0), (0x7EB, 0x7F5), (0x7FA, 0x7FA), (0x7FD, 0x7FD), (0x816, 0x82D), (0x859, 0x85B),
   (0x888, 0x888), (0x890, 0x891), (0x898, 0x89F), (0x8C9, 0x902), (0x93A, 0x93A), (0x93C, 0x93C),
   (0x941, 0x948), (0x94D, 0x94D), (0x951, 0x957), (0x962, 0x963), (0x971, 0x971), (0x981, 0x981),
   (0x9BC, 0x9BC), (0x9C1, 0x9C4), (0x9CD, 0x9CD), (0x9E2, 0x9E3), (0x9FE, 0x9FE), (0xA01, 0xA02),
   (0xA3C, 0xA3C), (0xA41, 0xA42), (0xA47, 0xA48), (0xA4B, 0xA4D), (0xA51, 0xA51), (0xA70, 0xA71),
   (0xA75, 0xA75), (0xA81, 0xA82), (0xABC, 0xABC), (0xAC1, 0xAC5), (0xAC7, 0xAC8), (0xACD, 0xACD),
   (0xAE2, 0xAE3), (0xAFA, 0xAFF), (0xB01, 0xB01), (0xB3C, 0xB3C), (0xB3F, 0xB3F), (0xB41, 0xB44),
   (0xB4D, 0xB4D), (0xB55, 0xB56), (0xB62, 0xB63), (0xB82, 0xB82), (0xBC0, 0xBC0), (0xBCD, 0xBCD),
   (0xC00, 0xC00), (0xC04, 0xC04), (0xC3C, 0xC3C), (0xC3E, 0xC40), (0xC46, 0xC48), (0xC4A, 0xC4D),
   (0xC55, 0xC56), (0xC62, 0xC63), (0xC81, 0xC81), (0xCBC, 0xCBC), (0xCBF, 0xCBF), (0xCC6, 0xCC6),
   (0xCCC, 0xCCD), (0xCE2, 0xCE3), (0xD00, 0xD01), (0xD3B, 0xD3C), (0xD41, 0xD44), (0xD4D, 0xD4D),
   (0xD62, 0xD63), (0xD81, 0xD81), (0xDCA, 0xDCA), (0xDD2, 0xDD4), (0xDD6, 0xDD6), (0xE31, 0xE31),
   (0xE34, 0xE3A), (0xE46, 0xE4E), (0xEB1, 0xEB1), (0xEB4, 0xEBC), (0xEC6, 0xEC6), (0xEC8, 0xECD),
   (0xF18, 0xF19), (0xF35, 0xF35), (0xF37, 0xF37), (0xF39, 0xF39), (0xF71, 0xF7E), (0xF80, 0xF84),
   (0xF86, 0xF87), (0xF8D, 0xF97), (0xF99, 0xFBC), (0xFC6, 0xFC6), (0x102D, 0x1030),
   (0x1032, 0x1037), (0x1039, 0x103A), (0x103D, 0x103E), (0x1058, 0x1059), (0x105E, 0x1060),
   (0x1071, 0x1074), (0x1082, 0x1082), (0x1085, 0x1086), (0x108D, 0x108D), (0x109D, 0x109D),
   (0x10FC, 0x10FC), (0x135D, 0x135F), (0x1712, 0x1714), (0x1732, 0x1733), (0x1752, 0x1753),
   (0x1772, 0x1773), (0x17B4, 0x17B5), (0x17B7, 0x17BD), (0x17C6, 0x17C6), (0x17C9, 0x17D3),
   (0x17D7, 0x17D7), (0x17DD, 0x17DD), (0x180B, 0x180F), (0x1843, 0x1843), (0x1885, 0x1886),
   (0x18A9, 0x18A9), (0x1920, 0x1922), (0x1927, 0x1928), (0x1932, 0x1932), (0x1939, 0x193B),
   (0x1A17, 0x1A18), (0x1A1B, 0x1A1B), (0x1A56, 0x1A56), (0x1A58, 0x1A5E), (0x1A60, 0x1A60),
   (0x1A62, 0x1A62), (0x1A65, 0x1A6C), (0x1A73, 0x1A7C), (0x1A7F, 0x1A7F), (0x1AA7, 0x1AA7),
   (0x1AB0, 0x1ACE), (0x1B00, 0x1B03), (0x1B34, 0x1B34), (0x1B36, 0x1B3A), (0x1B3C, 0x1B3C),
   (0x1B42, 0x1B42), (0x1B6B, 0x1B73), (0x1B80, 0x1B81), (0x1BA2, 0x1BA5), (0x1BA8, 0x1BA9),
   (0x1BAB, 0x1BAD), (0x1BE6, 0x1BE6), (0x1BE8, 0x1BE9), (0x1BED, 0x1BED), (0x1BEF, 0x1BF1),
   (0x1C2C, 0x1C33), (0x1C36, 0x1C37), (0x1C78, 0x1C7D), (0x1CD0, 0x1CD2), (0x1CD4, 0x1CE0),
   (0x1CE2, 0x1CE8), (0x1CED, 0x1CED), (0x1CF4, 0x1CF4), (0x1CF8, 0x1CF9), (0x1D2C, 0x1D6A),
   (0x1D78, 0x1D78), (0x1D9B, 0x1DFF), (0x1FBD, 0x1FBD), (0x1FBF, 0x1FC1), (0x1FCD, 0x1FCF),
   (0x1FDD, 0x1FDF), (0x1FED, 0x1FEF), (0x1FFD, 0x1FFE), (0x200B, 0x200F), (0x2018, 0x2019),
   (0x2024, 0x2024), (0x2027, 0x2027), (0x202A, 0x202E), (0x2060, 0x2064), (0x2066, 0x206F),
   (0x2071, 0x2071), (0x207F, 0x207F), (0x2090, 0x209C), (0x20D0, 0x20F0), (0x2C7C, 0x2C7D),
   (0x2CEF, 0x2CF1), (0x2D6F, 0x2D6F), (0x2D7F, 0x2D7F), (0x2DE0, 0x2DFF), (0x2E2F, 0x2E2F),
   (0x3005, 0x3005), (0x302A, 0x302D), (0x3031, 0x3035), (0x303B, 0x303B), (0x3099, 0x309E),
   (0x30FC, 0x30FE), (0xA015, 0xA015), (0xA4F8, 0xA4FD), (0xA60C, 0xA60C), (0xA66F, 0xA672),
   (0xA674, 0xA67D), (0xA67F, 0xA67F), (0xA69C, 0xA69F), (0xA6F0, 0xA6F1), (0xA700, 0xA721),
   (0xA770, 0xA770), (0xA788, 0xA78A), (0xA7F2, 0xA7F4), (0xA7F8, 0xA7F9), (0xA802, 0xA802),
   (0xA806, 0xA806), (0xA80B, 0xA80B), (0xA825, 0xA826), (0xA82C, 0xA82C), (0xA8C4, 0xA8C5),
   (0xA8E0, 0xA8F1), (0xA8FF, 0xA8FF), (0xA926, 0xA92D), (0xA947, 0xA951), (0xA980, 0xA982),
   (0xA9B3, 0xA9B3), (0xA9B6, 0xA9B9), (0xA9BC, 0xA9BD), (0xA9CF, 0xA9CF), (0xA9E5, 0xA9E6),
   (0xAA29, 0xAA2E), (0xAA31, 0xAA32), (0xAA35, 0xAA36), (0xAA43, 0xAA43), (0xAA4C, 0xAA4C),
   (0xAA70, 0xAA70), (0xAA7C, 0xAA7C), (0xAAB0, 0xAAB0), (0xAAB2, 0xAAB4), (0xAAB7, 0xAAB8),
   (0xAABE, 0xAABF), (0xAAC1, 0xAAC1), (0xAADD, 0xAADD), (0xAAEC, 0xAAED), (0xAAF3, 0xAAF4),
   (0xAAF6, 0xAAF6), (0xAB5B, 0xAB5F), (0xAB69, 0xAB6B), (0xABE5, 0xABE5), (0xABE8, 0xABE8),
   (0xABED, 0xABED), (0xFB1E, 0xFB1E), (0xFBB2, 0xFBC2), (0xFE00, 0xFE0F), (0xFE13, 0xFE13),
   (0xFE20, 0xFE2F), (0xFE52, 0xFE52), (0xFE55, 0xFE55), (0xFEFF, 0xFEFF), (0xFF07, 0xFF07),
   (0xFF0E, 0xFF0E), (0xFF1A, 0xFF1A), (0xFF3E, 0xFF3E), (0xFF40, 0xFF40), (0xFF70, 0xFF70),
   (0xFF9E, 0xFF9F), (0xFFE3, 0xFFE3), (0xFFF9, 0xFFFB), (0x101FD, 0x101FD), (0x102E0, 0x102E0),
   (0x10376, 0x1037A), (0x10780, 0x10785), (0x10787, 0x107B0), (0x107B2, 0x107BA),
   (0x10A01, 0x10A03), (0x10A05, 0x10A06), (0x10A0C, 0x10A0F), (0x10A38, 0x10A3A),
   (0x10A3F, 0x10A3F), (0x10AE5, 0x10AE6), (0x10D24, 0x10D27), (0x10EAB, 0x10EAC),
   (0x10F46, 0x10F50), (0x10F82, 0x10F85), (0x11001, 0x11001), (0x11038, 0x11046),
   (0x11070, 0x11070), (0x11073, 0x11074), (0x1107F, 0x11081), (0x110B3, 0x110B6),
   (0x110B9, 0x110BA), (0x110BD, 0x110BD), (0x110C2, 0x110C2), (0x110CD, 0x110CD),
   (0x11100, 0x11102), (0x11127, 0x1112B), (0x1112D, 0x11134), (0x11173, 0x11173),
   (0x11180, 0x11181), (0x111B6, 0x111BE), (0x111C9, 0x111CC), (0x111CF, 0x111CF),
   (0x1122F, 0x11231), (0x11234, 0x11234), (0x11236, 0x11237), (0x1123E, 0x1123E),
   (0x112DF, 0x112DF), (0x112E3, 0x112EA), (0x11300, 0x11301), (0x1133B, 0x1133C),
   (0x11340, 0x11340), (0x11366, 0x1136C), (0x11370, 0x11374), (0x11438, 0x1143F),
   (0x11442, 0x11444), (0x11446, 0x11446), (0x1145E, 0x1145E), (0x114B3, 0x114B8),
   (0x114BA, 0x114BA), (0x114BF, 0x114C0), (0x114C2, 0x114C3), (0x115B2, 0x115B5),
   (0x115BC, 0x115BD), (0x115BF, 0x115C0), (0x115DC, 0x115DD), (0x11633, 0x1163A),
   (0x1163D, 0x1163D), (0x1163F, 0x11640), (0x116AB, 0x116AB), (0x116AD, 0x116AD),
   (0x116B0, 0x116B5), (0x116B7, 0x116B7), (0x1171D, 0x1171F), (0x11722, 0x11725),
   (0x11727, 0x1172B), (0x1182F, 0x11837), (0x11839, 0x1183A), (0x1193B, 0x1193C),
   (0x1193E, 0x1193E), (0x11943, 0x11943), (0x119D4, 0x119D7), (0x119DA, 0x119DB),
   (0x119E0, 0x119E0), (0x11A01, 0x11A0A), (0x11A33, 0x11A38), (0x11A3B, 0x11A3E),
   (0x11A47, 0x11A47), (0x11A51, 0x11A56), (0x11A59, 0x11A5B), (0x11A8A, 0x11A96),
   (0x11A98, 0x11A99), (0x11C30, 0x11C36), (0x11C38, 0x11C3D), (0x11C3F, 0x11C3F),
   (0x11C92, 0x11CA7), (0x11CAA, 0x11CB0), (0x11CB2, 0x11CB3), (0x11CB5, 0x11CB6),
   (0x11D31, 0x11D36), (0x11D3A, 0x11D3A), (0x11D3C, 0x11D3D), (0x11D3F, 0x11D45),
   (0x11D47, 0x11D47), (0x11D90, 0x11D91), (0x11D95, 0x11D95), (0x11D97, 0x11D97),
   (0x11EF3, 0x11EF4), (0x13430, 0x13438), (0x16AF0, 0x16AF4), (0x16B30, 0x16B36),
   (0x16B40, 0x16B43), (0x16F4F, 0x16F4F), (0x16F8F, 0x16F9F), (0x16FE0, 0x16FE1),
   (0x16FE3, 0x16FE4), (0x1AFF0, 0x1AFF3), (0x1AFF5, 0x1AFFB), (0x1AFFD, 0x1AFFE),
   (0x1BC9D, 0x1BC9E), (0x1BCA0, 0x1BCA3), (0x1CF00, 0x1CF2D), (0x1CF30, 0x1CF46),
   (0x1D167, 0x1D169), (0x1D173, 0x1D182), (0x1D185, 0x1D18B), (0x1D1AA, 0x1D1AD),
   (0x1D242, 0x1D244), (0x1DA00, 0x1DA36), (0x1DA3B, 0x1DA6C), (0x1DA75, 0x1DA75),
   (0x1DA84, 0x1DA84), (0x1DA9B, 0x1DA9F), (0x1DAA1, 0x1DAAF), (0x1E000, 0x1E006),
   (0x1E008, 0x1E018), (0x1E01B, 0x1E021), (0x1E023, 0x1E024), (0x1E026, 0x1E02A),
   (0x1E130, 0x1E13D), (0x1E2AE, 0x1E2AE), (0x1E2EC, 0x1E2EF), (0x1E8D0, 0x1E8D6),
   (0x1E944, 0x1E94B), (0x1F3FB, 0x1F3FF), (0xE0001, 0xE0001), (0xE0020, 0xE007F),
   (0xE0100, 0xE01EF)]

/-- Membership in a list of inclusive code-point ranges. -/
def inRanges (rs : List (Nat × Nat)) (n : Nat) : Bool :=
  rs.any fun r => r.1 ≤ n && n ≤ r.2

/-- The scan-stopping cased characters of the Final_Sigma rule. -/
def isCasedStop (c : Char) : Bool := inRanges casedStopRanges c.toNat

/-- The case-ignorable characters of the Final_Sigma rule. -/
def isCaseIgnorable (c : Char) : Bool := inRanges caseIgnorableRanges c.toNat

/-- The context-free part of `str.lower` on one character: the İ
(U+0130) mapping to `i` plus combining dot above is the only
one-to-many lowercase mapping; everything else follows the range
rules. -/
def pyLowerChar (c : Char) : List Char :=
  let n := c.toNat
  if n = 0x130 then [Char.ofNat 0x69, Char.ofNat 0x307]
  else
    match lowerDeltaRules.find? (fun r =>
        r.2.1 ≤ n && n ≤ r.2.2.1 && (!r.1 || (n - r.2.1) % 2 == 0)) with
    | some r => [Char.ofNat ((n : Int) + r.2.2.2).toNat]
    | none => [c]

/-- CPython's Final_Sigma test for a capital sigma with `prev` the
reversed text before it and `rest` the text after it: a cased character
before (skipping case-ignorable characters) and no cased character
after (skipping case-ignorable characters). -/
def finalSigma (prev rest : List Char) : Bool :=
  ((prev.dropWhile isCaseIgnorable).head?.any isCasedStop) &&
  !((rest.dropWhile isCaseIgnorable).head?.any isCasedStop)

/-- `str.lower` over the text: capital sigma (U+03A3) lowers to final
sigma `ς` in Final_Sigma position and to `σ` otherwise; every other
character lowers context-freely. -/
def pyLowerGo : List Char → List Char → List Char
  | _, [] => []
  | prev, c :: rest =>
    (if c.toNat = 0x3A3 then
      [Char.ofNat (if finalSigma prev rest then 0x3C2 else 0x3C3)]
    else pyLowerChar c) ++ pyLowerGo (c :: prev) rest

/-- Python `str.lower` on a character list: the full Unicode simple
mappings, the İ special case, and the contextual final-sigma rule —
the comparison `apply_misspellings_only` performs. -/
def lowerL (l : List Char) : List Char :=
  pyLowerGo [] l


/-- Normalization of one Python slice bound against a string of length `n`:
negative bounds count from the end and are clamped at 0, bounds past the
end are clamped at `n`. -/
def pyBound (n : Nat) (i : Int) : Nat :=
  if i < 0 then (i + n).toNat else min i.toNat n

/-- Python `s[a:b]` on a character list. -/
def pySlice (s : List Char) (a b : Int) : List Char :=
  (s.take (pyBound s.length b)).drop (pyBound s.length a)

/-- One replacement candidate of a LanguageTool match (`{"value": ...}`). -/
structure Repl where
  value : String
deriving DecidableEq, Repr

/-- A LanguageTool match as `apply_misspellings_only` reads it:
`rule.issueType`, the (possibly empty) replacement list, `offset` and
`length`. -/
structure LTMatch where
  issueType : Option String
  replacements : List Repl
  offset : Int
  length : Int
deriving DecidableEq, Repr

/-- The loop body of `apply_misspellings_only`: the running `shift` is the
second argument; each applied edit rewrites `text[:start] + replacement +
text[end:]` and adds `len(replacement) - length` to the shift. -/
def applyGo : List Char → Int → List LTMatch → List Char
  | t, _, [] => t
  | t, sh, m :: rest =>
    if m.issueType ≠ some "misspelling" then applyGo t sh rest else
    match m.replacements with
    | [] => applyGo t sh rest
    | r :: _ =>
      if '\uE000' ∈ pySlice t (m.offset + sh) (m.offset + sh + m.length) then
        applyGo t sh rest
      else if lowerL (pySlice t (m.offset + sh) (m.offset + sh + m.length)) =
                lowerL r.value.data ∧
              pySlice t (m.offset + sh) (m.offset + sh + m.length) ≠ r.value.data then
        applyGo t sh rest
      else
        applyGo
          (pySlice t 0 (m.offset + sh) ++ r.value.data ++
            pySlice t (m.offset + sh + m.length) t.length)
          (sh + (r.value.data.length : Int) - m.length) rest

/-- `apply_misspellings_only(text, matches)`. -/
def apply_misspellings_only (text : String) (ms : List LTMatch) : String :=
  String.mk (applyGo text.data 0 ms)

/-- A replacement candidate as raw JSON: the `"value"` key may be absent. -/
structure ReplJ where
  value : Option String
deriving DecidableEq, Repr

/-- A match as raw JSON: `offset` and `length` may be absent (Python
would raise `KeyError` on `m["offset"]` / `m["length"]`), `issueType`
is read with `.get` and never raises, a missing or falsy `replacements`
is already the empty list (`m.get("replacements") or []`). -/
structure LTMatchJ where
  issueType : Option String
  replacements : List ReplJ
  offset : Option Int
  length : Option Int
deriving DecidableEq, Repr

/-- `apply_misspellings_only` over raw JSON matches, with `none` at
exactly the points where the Python code would raise (`m["offset"]`,
`m["length"]`, `repls[0]["value"]`). -/
def applyJGo : List Char → Int → List LTMatchJ → Option (List Char)
  | t, _, [] => some t
  | t, sh, m :: rest =>
    if m.issueType ≠ some "misspelling" then applyJGo t sh rest else
    match m.replacements with
    | [] => applyJGo t sh rest
    | r :: _ =>
      match m.offset, m.length, r.value with
      | some off, some len, some v =>
        if '\uE000' ∈ pySlice t (off + sh) (off + sh + len) then
          applyJGo t sh rest
        else if lowerL (pySlice t (off + sh) (off + sh + len)) = lowerL v.data ∧
                pySlice t (off + sh) (off + sh + len) ≠ v.data then
          applyJGo t sh rest
        else
          applyJGo
            (pySlice t 0 (off + sh) ++ v.data ++ pySlice t (off + sh + len) t.length)
            (sh + (v.data.length : Int) - len) rest
      | _, _, _ => none

/-- String-level wrapper of `applyJGo`. -/
def applyJ (text : String) (ms : List LTMatchJ) : Option String :=
  (applyJGo text.data 0 ms).map String.mk

/-- Consume one literal `.` from the head of the list. -/
def expectDot : List Char → Option (List Char)
  | c :: cs => if c = '.' then some cs else none
  | [] => none

/-- Anchored match of `ELLIPSIS_RE = \.\s*\.\s*\.` at the head of the
list: returns the remainder after the third dot.  The greedy `\s*` is
deterministic here because `.` is not a whitespace character. -/
def dotsMatch (s : List Char) : Option (List Char) :=
  (expectDot s).bind fun s1 =>
    (expectDot (s1.dropWhile isPySpace)).bind fun s2 =>
      expectDot (s2.dropWhile isPySpace)

/-- `ELLIPSIS_RE.sub("...", text)`: leftmost, non-overlapping
replacement of every `\.\s*\.\s*\.` occurrence by a literal `...`. -/
def ellipsisSub : List Char → List Char
  | [] => []
  | c :: cs =>
    match h : dotsMatch (c :: cs) with
    | some rest => '.' :: '.' :: '.' :: ellipsisSub rest
    | none => c :: ellipsisSub cs
termination_by l => l.length
decreasing_by
· have einv : ∀ x y : List Char, expectDot x = some y → x = '.' :: y := by
    intro x y hxy
    rcases x with _ | ⟨c0, cs0⟩
    · simp [expectDot] at hxy
    · simp only [expectDot] at hxy
      split at hxy
      · rename_i hc0
        subst hc0
        simp only [Option.some.injEq] at hxy
        subst hxy
        rfl
      · simp at hxy
  simp only [dotsMatch, Option.bind_eq_some] at h
  obtain ⟨s1, h1, s2, h2, h3⟩ := h
  have e1 := einv _ _ h1
  have e2 := einv _ _ h2
  have e3 := einv _ _ h3
  have l1 : (s1.dropWhile isPySpace).length ≤ s1.length :=
    (List.dropWhile_sublist _).length_le
  have l2 : (s2.dropWhile isPySpace).length ≤ s2.length :=
    (List.dropWhile_sublist _).length_le
  rw [e2] at l1
  rw [e3] at l2
  injection e1 with e1a e1b
  subst e1b
  simp only [List.length_cons] at l1 l2 ⊢
  omega
· simp

/-- `SPACE_BEFORE_PUNCT_RE = \s+([,.;:!?])` substituted by `\1`,
realized by the position-by-position scan: a whitespace character is
deleted exactly when the first non-whitespace character after it is
punctuation (then the whole `\s+` run before that punctuation is
deleted, keeping the punctuation); otherwise the scanner advances one
character, as `re.sub` does after a failed match attempt. -/
def sbpSub : List Char → List Char
  | [] => []
  | c :: cs =>
    if isPySpace c && (cs.dropWhile isPySpace).head?.any isPunctCh then
      sbpSub cs
    else c :: sbpSub cs

/-- `SPACE_AFTER_PUNCT_RE = ([,.;:!?])([A-Za-z0-9])` substituted by
`\1 \2`. -/
def sapSub : List Char → List Char
  | [] => []
  | [c] => [c]
  | c :: d :: cs =>
    if isPunctCh c && isAlnumCh d then c :: ' ' :: d :: sapSub cs
    else c :: sapSub (d :: cs)

/-- `SPACE_AFTER_DOT_RE = (\.)([A-Za-z])` substituted by `\1 \2`. -/
def sadSub : List Char → List Char
  | [] => []
  | [c] => [c]
  | c :: d :: cs =>
    if c == '.' && d.isAlpha then c :: ' ' :: d :: sadSub cs
    else c :: sadSub (d :: cs)

/-- `MULTISPACE_RE = [ \t]{2,}` substituted by a single space: a maximal
run of at least two spaces/tabs collapses to one space. -/
def msSub : List Char → List Char
  | [] => []
  | c :: cs =>
    if isSpTab c then
      if cs.head?.any isSpTab then ' ' :: msSub (cs.dropWhile isSpTab)
      else c :: msSub cs
    else c :: msSub cs
termination_by l => l.length
decreasing_by
· have hle : (cs.dropWhile isSpTab).length ≤ cs.length :=
    (List.dropWhile_sublist _).length_le
  simp only [List.length_cons]
  omega
· simp only [List.length_cons]
  omega
· simp only [List.length_cons]
  omega

/-- `safe_spacing_cleanup`: the five substitutions in source order. -/
def safe_spacing_cleanup (s : String) : String :=
  String.mk (msSub (sadSub (sapSub (sbpSub (ellipsisSub s.data)))))

/-- Index of the last newline in a list, if any. -/
def lastNL : List Char → Option Nat
  | [] => none
  | c :: cs =>
    match lastNL cs with
    | some j => some (j + 1)
    | none => if c == '\n' then some 0 else none

/-- Anchored match of the tail `\s*\n` of the separator pattern
`(\n\s*\n)`, greedy: the final newline is the last newline inside the
maximal whitespace run.  Returns (consumed, rest). -/
def sepAt (cs : List Char) : Option (List Char × List Char) :=
  match lastNL (cs.takeWhile isPySpace) with
  | some j => some (cs.take (j + 1), cs.drop (j + 1))
  | none => none

/-- Leftmost match of `\n\s*\n`: returns (prefix, separator, rest). -/
def findSep : List Char → Option (List Char × List Char × List Char)
  | [] => none
  | c :: cs =>
    if c = '\n' then
      match sepAt cs with
      | some (sep, rest) => some ([], c :: sep, rest)
      | none =>
        match findSep cs with
        | some (p, sp, r) => some (c :: p, sp, r)
        | none => none
    else
      match findSep cs with
      | some (p, sp, r) => some (c :: p, sp, r)
      | none => none

/-- The recursion of `re.split(r'(\n\s*\n)', text)`, fuel-bounded (each
separator is nonempty, so `length + 1` fuel always suffices; see
`splitGo_eq`). -/
def splitGo : Nat → List Char → List (List Char)
  | 0, s => [s]
  | fuel + 1, s =>
    match findSep s with
    | none => [s]
    | some (p, sep, r) => p :: sep :: splitGo fuel r

/-- `re.split(r'(\n\s*\n)', text)`: pieces and (captured) separators,
alternating, starting and ending with a piece. -/
def splitL (s : List Char) : List (List Char) :=
  splitGo (s.length + 1) s

/-- String-level paragraph split of `chunk_paragraphs`. -/
def splitSep (s : String) : List String :=
  (splitL s.data).map String.mk

/-- The accumulation loop of `chunk_paragraphs`: parts are greedily
appended to `cur`; when adding a part would overflow `maxChars` and
`cur` is nonempty, `cur` is emitted and the part starts a new chunk. -/
def chunkGo (maxChars : Nat) : List String → String → List String
  | [], cur => if cur.length = 0 then [] else [cur]
  | p :: ps, cur =>
    if maxChars < cur.length + p.length ∧ cur.length ≠ 0 then
      cur :: chunkGo maxChars ps p
    else chunkGo maxChars ps (cur ++ p)

/-- `chunk_paragraphs(text)` with the configured `MAX_CHUNK_CHARS` made
an explicit parameter. -/
def chunk_paragraphs (maxChars : Nat) (text : String) : List String :=
  chunkGo maxChars (splitSep text) ""

/-- The grouping refinement of `chunkGo`: the same accumulation loop,
keeping each chunk as the list of parts it was accumulated from
(`cur = String.join acc` throughout). -/
def chunkGrp (maxChars : Nat) : List String → List String → List (List String)
  | [], acc => if (String.join acc).length = 0 then [] else [acc]
  | p :: ps, acc =>
    if maxChars < (String.join acc).length + p.length ∧ (String.join acc).length ≠ 0 then
      acc :: chunkGrp maxChars ps [p]
    else chunkGrp maxChars ps (acc ++ [p])

/-- The even-indexed elements of a list. -/
def evenIdx : List α → List α
  | [] => []
  | [a] => [a]
  | a :: _ :: t => a :: evenIdx t

/-- The paragraphs of a text: the non-separator (even-indexed) pieces of
`re.split(r'(\n\s*\n)', text)` — the maximal runs between blank-line
boundaries. -/
def paragraphsOf (text : String) : List String :=
  evenIdx (splitSep text)

/-- Regular-expression ASTs covering the constructs used by the
protection patterns of `spellfix.py`: character classes, concatenation,
alternation, greedy star, look-ahead (positive/negative), single-char
look-behind, word boundaries `\b`/`\B`, and capture groups. -/
inductive RE where
  | eps : RE
  | cls : (Char → Bool) → RE
  | cat : RE → RE → RE
  | alt : RE → RE → RE
  | star : RE → RE
  | look : Bool → RE → RE
  | lb : Bool → (Char → Bool) → RE
  | wb : RE
  | nwb : RE
  | grp : Nat → RE → RE

/-- Python `\b`: exactly one neighbour of the position is a word
character; a missing neighbour counts as non-word. -/
def wordBoundary (left s : List Char) : Bool :=
  (left.head?.any isWordChar) != (s.head?.any isWordChar)

/-- Backtracking matcher in continuation style, anchored at the current
position.  `left` is the reversed text before the position (for `\b`
and look-behind), `s` the remaining text.  Greedy `star` tries the
longer match first and backtracks, as Python `re` does.  `fuel` bounds
the recursion depth only; `matchTop` supplies ample fuel. -/
def matchR : Nat → RE → List Char → List Char → List (Nat × List Char) →
    (List Char → List Char → List (Nat × List Char) →
      Option (List Char × List Char × List (Nat × List Char))) →
    Option (List Char × List Char × List (Nat × List Char))
  | 0, _, _, _, _, _ => none
  | fuel + 1, r, left, s, caps, k =>
    match r with
    | .eps => k left s caps
    | .cls p =>
      match s with
      | [] => none
      | c :: cs => if p c then k (c :: left) cs caps else none
    | .cat a b =>
      matchR fuel a left s caps fun l2 s2 c2 => matchR fuel b l2 s2 c2 k
    | .alt a b =>
      match matchR fuel a left s caps k with
      | some res => some res
      | none => matchR fuel b left s caps k
    | .star a =>
      match matchR fuel a left s caps (fun l2 s2 c2 =>
          if s2.length < s.length then matchR fuel (.star a) l2 s2 c2 k
          else k l2 s2 c2) with
      | some res => some res
      | none => k left s caps
    | .look neg a =>
      match matchR fuel a left s caps (fun l2 s2 c2 => some (l2, s2, c2)) with
      | some _ => if neg then none else k left s caps
      | none => if neg then k left s caps else none
    | .lb neg p =>
      if (left.head?.any p) != neg then k left s caps else none
    | .wb => if wordBoundary left s then k left s caps else none
    | .nwb => if wordBoundary left s then none else k left s caps
    | .grp i a =>
      matchR fuel a left s caps fun l2 s2 c2 =>
        k l2 s2 ((i, (l2.take (l2.length - left.length)).reverse) :: c2)

/-- Ample matcher fuel for the patterns of this file. -/
def engineFuel (s : List Char) : Nat := 50 * s.length + 200

/-- Try to match `r` at the current position. -/
def matchTop (r : RE) (left s : List Char) :
    Option (List Char × List Char × List (Nat × List Char)) :=
  matchR (engineFuel s) r left s [] fun l2 s2 c2 => some (l2, s2, c2)

/-- `pat.sub` with a stateful replacement function: scan left to right,
replace each leftmost non-overlapping match; subsequent matching
continues over the original text after the match (Python semantics). -/
def subStGo {σ : Type} : Nat →
    RE → (σ → List (Nat × List Char) → List Char → List Char × σ) →
    List Char → List Char → σ → List Char × σ
  | 0, _, _, _, s, st => (s, st)
  | fuel + 1, r, f, left, s, st =>
    match matchTop r left s with
    | some (l2, s2, caps) =>
      let consumed := (l2.take (l2.length - left.length)).reverse
      let res := f st caps consumed
      if consumed.isEmpty then
        match s with
        | [] => (res.1, res.2)
        | c :: cs =>
          let rec2 := subStGo fuel r f (c :: left) cs res.2
          (res.1 ++ c :: rec2.1, rec2.2)
      else
        let rec2 := subStGo fuel r f l2 s2 res.2
        (res.1 ++ rec2.1, rec2.2)
    | none =>
      match s with
      | [] => ([], st)
      | c :: cs =>
        let rec2 := subStGo fuel r f (c :: left) cs st
        (c :: rec2.1, rec2.2)

/-- `pat.sub(f, s)` over a whole string, threading state `st`. -/
def subSt {σ : Type} (r : RE)
    (f : σ → List (Nat × List Char) → List Char → List Char × σ)
    (s : List Char) (st : σ) : List Char × σ :=
  subStGo (s.length + 1) r f [] s st

/-- A case-sensitive literal character. -/
def chLit (c : Char) : RE := .cls fun x => x == c

/-- A case-insensitive literal character (`re.IGNORECASE`). -/
def chLitCI (c : Char) : RE := .cls fun x => x.toLower == c.toLower

/-- Concatenation of a pattern list. -/
def catList (l : List RE) : RE := l.foldr .cat .eps

/-- A case-insensitive literal string. -/
def strLitCI (s : String) : RE := catList (s.data.map chLitCI)

/-- `+` (greedy). -/
def rePlus (r : RE) : RE := .cat r (.star r)

/-- `?` (greedy). -/
def reOpt (r : RE) : RE := .alt r .eps

/-- `{2,}` over a character class (greedy). -/
def reRep2 (p : Char → Bool) : RE := .cat (.cls p) (rePlus (.cls p))

/-- `\b(?:SpellFix)\b` with `re.IGNORECASE` (`BRANDS = ["SpellFix"]`). -/
def BRAND_RE : RE := catList [.wb, strLitCI "SpellFix", .wb]

/-- `\b(?:https?://|ftp://|www\.)[^\s<>()"]+` with `re.IGNORECASE`. -/
def URL_RE : RE :=
  catList [.wb,
    .alt (catList [strLitCI "http", reOpt (chLitCI 's'), strLitCI "://"])
      (.alt (strLitCI "ftp://") (strLitCI "www.")),
    rePlus (.cls fun c =>
      !isPySpace c && c != '<' && c != '>' && c != '(' && c != ')' && c != '"')]

/-- `\b[A-Z0-9._%+-]+@[A-Z0-9.-]+\.[A-Z]{2,}\b` with `re.IGNORECASE`. -/
def EMAIL_RE : RE :=
  catList [.wb,
    rePlus (.cls fun c =>
      c.isAlphanum || c == '.' || c == '_' || c == '%' || c == '+' || c == '-'),
    chLit '@',
    rePlus (.cls fun c => c.isAlphanum || c == '.' || c == '-'),
    chLit '.',
    reRep2 Char.isAlpha,
    .wb]

/-- `\b[a-z]+[A-Z][A-Za-z0-9]*\b`. -/
def CAMEL_RE : RE :=
  catList [.wb, rePlus (.cls Char.isLower), .cls Char.isUpper,
    .star (.cls Char.isAlphanum), .wb]

/-- `\b[A-Za-z0-9]+(?:_[A-Za-z0-9]+)+\b`. -/
def SNAKE_RE : RE :=
  catList [.wb, rePlus (.cls Char.isAlphanum),
    rePlus (.cat (chLit '_') (rePlus (.cls Char.isAlphanum))), .wb]

/-- `\b[A-Za-z0-9]+(?:-[A-Za-z0-9]+)+\b`. -/
def KEBAB_RE : RE :=
  catList [.wb, rePlus (.cls Char.isAlphanum),
    rePlus (.cat (chLit '-') (rePlus (.cls Char.isAlphanum))), .wb]

/-- `[A-Za-z_]`. -/
def identStartChar (c : Char) : Bool := c.isAlpha || c == '_'

/-- `\b(?=[A-Za-z_])(?:[A-Za-z_][A-Za-z0-9_]*\.)+[A-Za-z_][A-Za-z0-9_]*\b(?=.*[_0-9A-Z])`
(`.` does not match a newline without `re.DOTALL`). -/
def DOT_IDENT_RE : RE :=
  catList [.wb, .look false (.cls identStartChar),
    rePlus (catList [.cls identStartChar, .star (.cls isWordChar), chLit '.']),
    .cls identStartChar, .star (.cls isWordChar), .wb,
    .look false (.cat (.star (.cls fun c => c != '\n'))
      (.cls fun c => c == '_' || c.isDigit || c.isUpper))]

/-- `(?:(?:~|/)[^\s]+)|(?:[A-Za-z]:\\[^\s]+)`. -/
def PATH_RE : RE :=
  .alt
    (catList [.cls (fun c => c == '~' || c == '/'), rePlus (.cls fun c => !isPySpace c)])
    (catList [.cls Char.isAlpha, chLit ':', chLit '\\', rePlus (.cls fun c => !isPySpace c)])

/-- `\B--?[A-Za-z][A-Za-z0-9-]*\b`. -/
def FLAG_RE : RE :=
  catList [.nwb, chLit '-', reOpt (chLit '-'), .cls Char.isAlpha,
    .star (.cls fun c => c.isAlphanum || c == '-'), .wb]

/-- `(?<!\w)([A-Za-z]{2,})\.([A-Za-z]{2,})(?!\w)`. -/
def PROSE_DOT_JOIN_RE : RE :=
  catList [.lb true isWordChar, .grp 1 (reRep2 Char.isAlpha), chLit '.',
    .grp 2 (reRep2 Char.isAlpha), .look true (.cls isWordChar)]

/-- The placeholder sentinel U+E000 of `PLACEHOLDER_FMT`. -/
def PLACEHOLDER_CHAR : Char := '\uE000'

/-- `PLACEHOLDER_FMT.format(n=n)`: U+E000, the decimal digits of `n`,
U+E000. -/
def placeholderKey (n : Nat) : List Char :=
  PLACEHOLDER_CHAR :: Nat.toDigits 10 n ++ [PLACEHOLDER_CHAR]

/-- The `repl` closure of `protect`: emit the next placeholder key and
record the mapping entry, incrementing the shared counter. -/
def protRepl (st : Nat × List (List Char × List Char))
    (_caps : List (Nat × List Char)) (matched : List Char) :
    List Char × (Nat × List (List Char × List Char)) :=
  (placeholderKey st.1, (st.1 + 1, st.2 ++ [(placeholderKey st.1, matched)]))

/-- The substitution order of `protect`: brand tokens first, then the
tuple `(URL_RE, EMAIL_RE, PATH_RE, FLAG_RE, DOT_IDENT_RE, CAMEL_RE,
SNAKE_RE, KEBAB_RE)`. -/
def protectPats : List RE :=
  [BRAND_RE, URL_RE, EMAIL_RE, PATH_RE, FLAG_RE, DOT_IDENT_RE, CAMEL_RE,
    SNAKE_RE, KEBAB_RE]

/-- `protect` on a character list: fold the pattern substitutions over
the text, threading the counter and the insertion-ordered mapping. -/
def protectL (s : List Char) : List Char × List (List Char × List Char) :=
  let res := protectPats.foldl (fun acc pat => subSt pat protRepl acc.1 acc.2)
    (s, (0, []))
  (res.1, res.2.2)

/-- `protect(text) -> (protected, mapping)`. -/
def protect (s : String) : String × List (String × String) :=
  let r := protectL s.data
  (String.mk r.1, r.2.map fun kv => (String.mk kv.1, String.mk kv.2))

/-- Python `str.replace(old, new)` (all non-overlapping occurrences,
left to right; `old` is nonempty for every placeholder key). -/
def replaceAllGo : Nat → List Char → List Char → List Char → List Char
  | 0, _, _, s => s
  | fuel + 1, pat, rep, s =>
    match s with
    | [] => []
    | c :: cs =>
      if pat ≠ [] && pat.isPrefixOf s then
        rep ++ replaceAllGo fuel pat rep (s.drop pat.length)
      else c :: replaceAllGo fuel pat rep cs

/-- `text.replace(k, v)` at string level. -/
def strReplace (s pat rep : String) : String :=
  String.mk (replaceAllGo (s.data.length + 1) pat.data rep.data s.data)

/-- `unprotect`: replace each mapping key by its original substring, in
insertion order. -/
def unprotect (text : String) (mapping : List (String × String)) : String :=
  mapping.foldl (fun acc kv => strReplace acc kv.1 kv.2) text

/-- Python group lookup: the most recent capture of group `i`. -/
def capGet (caps : List (Nat × List Char)) (i : Nat) : List Char :=
  ((caps.find? fun e => e.1 == i).map fun e => e.2).getD []

/-- The replacement `\1 \2` of the prose dot-join substitution. -/
def proseRepl (st : Unit) (caps : List (Nat × List Char)) (_m : List Char) :
    List Char × Unit :=
  (capGet caps 1 ++ ' ' :: capGet caps 2, st)

/-- One `PROSE_DOT_JOIN_RE.sub(r"\1 \2", text)` pass. -/
def proseSubOnce (s : List Char) : List Char :=
  (subSt PROSE_DOT_JOIN_RE proseRepl s ()).1

/-- `fix_dot_joined_words`: eight passes of the prose dot-join
substitution (`for _ in range(8)`). -/
def fix_dot_joined_words (s : String) : String :=
  String.mk (Nat.repeat proseSubOnce 8 s.data)

/-- Substring occurrence test (for stating the placeholder-nesting
results). -/
def hasSubstr (s sub : List Char) : Bool :=
  match s with
  | [] => sub.isEmpty
  | _ :: tail => sub.isPrefixOf s || hasSubstr tail sub

/-- String-level substring occurrence. -/
def strHasSubstr (s sub : String) : Bool :=
  hasSubstr s.data sub.data

/-- The stderr line of the per-chunk `except` handler
(`print(f"[SpellFix error] {e}", file=sys.stderr)`). -/
def diagMsg (e : String) : String := "[SpellFix error] " ++ e

/-- One iteration of the chunk loop of `main`: `call_lt` and the match
application run under `try`; on failure the chunk passes through
unchanged with a diagnostic line.  The oracle `lt` stands for the
external service call with `resp.get("matches", [])` folded in; a
`none` from the patch applier models an exception raised inside the
`try` body, after which `ch` still holds the original chunk text. -/
def chunkStep (lt : String → Except String (List LTMatchJ)) (ch : String) :
    String × List String :=
  match lt ch with
  | .error e => (ch, [diagMsg e])
  | .ok ms =>
    match applyJ ch ms with
    | none => (ch, [diagMsg "apply"])
    | some t => (t, [])

/-- The chunk loop of `main`: strictly sequential, outputs appended in
chunk order, diagnostics emitted in order. -/
def processChunks (lt : String → Except String (List LTMatchJ)) :
    List String → List String × List String
  | [] => ([], [])
  | ch :: rest =>
    let r := chunkStep lt ch
    let rs := processChunks lt rest
    (r.1 :: rs.1, r.2 ++ rs.2)

/-- Adjacent-pair invariant: no two consecutive characters `a, b` with
`bad a b`. -/
def pairsOK (bad : Char → Char → Bool) : List Char → Bool
  | a :: b :: t => !bad a b && pairsOK bad (b :: t)
  | _ => true

/-- Whitespace directly before punctuation (what `SPACE_BEFORE_PUNCT_RE`
matches on). -/
def badSP (a b : Char) : Bool :=
  isPySpace a && isPunctCh b

/-- Punctuation directly followed by an alphanumeric (what
`SPACE_AFTER_PUNCT_RE` matches on). -/
def badPA (a b : Char) : Bool :=
  isPunctCh a && isAlnumCh b

/-- Two adjacent spaces/tabs (what `MULTISPACE_RE` matches on). -/
def badTT (a b : Char) : Bool :=
  isSpTab a && isSpTab b

end Spellfix

namespace Spellfix

theorem expectDot_eq_some {s r : List Char} :
    expectDot s = some r ↔ s = '.' :: r := by
  rcases s with _ | ⟨c, cs⟩
  · simp [expectDot]
  · by_cases hc : c = '.'
    · subst hc
      simp [expectDot]
    · simp [expectDot, hc]

theorem dotsMatch_eq_some {s r : List Char} :
    dotsMatch s = some r ↔
      ∃ s1 s2, s = '.' :: s1 ∧ s1.dropWhile isPySpace = '.' :: s2 ∧
        s2.dropWhile isPySpace = '.' :: r := by
  simp only [dotsMatch, Option.bind_eq_some, expectDot_eq_some]
  constructor
  · rintro ⟨s1, h1, s2, h2, h3⟩
    exact ⟨s1, s2, h1, h2, h3⟩
  · rintro ⟨s1, s2, h1, h2, h3⟩
    exact ⟨s1, h1, s2, h2, h3⟩

theorem sepAt_decomp {cs sep rest : List Char}
    (h : sepAt cs = some (sep, rest)) : cs = sep ++ rest := by
  rw [sepAt] at h
  split at h
  · simp only [Option.some.injEq, Prod.mk.injEq] at h
    obtain ⟨e1, e2⟩ := h
    subst e1; subst e2
    exact (List.take_append_drop _ _).symm
  · exact absurd h (by simp)

theorem findSep_decomp {s p sep r : List Char}
    (h : findSep s = some (p, sep, r)) : s = p ++ sep ++ r ∧ sep ≠ [] := by
  induction s generalizing p sep r with
  | nil => simp [findSep] at h
  | cons c cs ih =>
    rw [findSep] at h
    split at h
    · split at h
      · rename_i sp rest hsep
        simp only [Option.some.injEq, Prod.mk.injEq] at h
        obtain ⟨e1, e2, e3⟩ := h
        subst e1; subst e2; subst e3
        refine ⟨?_, by simp⟩
        have := sepAt_decomp hsep
        simp [this]
      · split at h
        · rename_i p0 sp0 r0 hfs
          simp only [Option.some.injEq, Prod.mk.injEq] at h
          obtain ⟨e1, e2, e3⟩ := h
          subst e1; subst e2; subst e3
          obtain ⟨h1, h2⟩ := ih hfs
          exact ⟨by simp [h1], h2⟩
        · exact absurd h (by simp)
    · split at h
      · rename_i p0 sp0 r0 hfs
        simp only [Option.some.injEq, Prod.mk.injEq] at h
        obtain ⟨e1, e2, e3⟩ := h
        subst e1; subst e2; subst e3
        obtain ⟨h1, h2⟩ := ih hfs
        exact ⟨by simp [h1], h2⟩
      · exact absurd h (by simp)

theorem findSep_rest_lt {s p sep r : List Char}
    (h : findSep s = some (p, sep, r)) : r.length < s.length := by
  obtain ⟨h1, h2⟩ := findSep_decomp h
  subst h1
  rcases sep with _ | ⟨c, cs⟩
  · exact absurd rfl h2
  · simp only [List.length_append, List.length_cons]
    omega

/-- Fuel irrelevance for `splitGo`: any fuel above the input length
gives the same result. -/
theorem splitGo_fuel {f1 f2 : Nat} {s : List Char} (h1 : s.length < f1)
    (h2 : s.length < f2) : splitGo f1 s = splitGo f2 s := by
  induction f1 generalizing f2 s with
  | zero => omega
  | succ n ih =>
    cases f2 with
    | zero => omega
    | succ m =>
      rw [splitGo, splitGo]
      cases hfs : findSep s with
      | none => rfl
      | some v =>
        obtain ⟨p, sep, r⟩ := v
        have hlt := findSep_rest_lt hfs
        show p :: sep :: splitGo n r = p :: sep :: splitGo m r
        rw [@ih m r (by omega) (by omega)]

/-- The fuel of `splitL` always suffices: `splitL` satisfies the
intended (unbounded) recurrence of `re.split`. -/
theorem splitL_eq (s : List Char) :
    splitL s =
      match findSep s with
      | none => [s]
      | some (p, sep, r) => p :: sep :: splitL r := by
  rw [splitL, splitGo]
  cases hfs : findSep s with
  | none => rfl
  | some v =>
    obtain ⟨p, sep, r⟩ := v
    have hlt := findSep_rest_lt hfs
    show p :: sep :: splitGo s.length r = _
    have h := @splitGo_fuel s.length (r.length + 1) r (by omega) (by omega)
    rw [h]
    rfl

end Spellfix

namespace Spellfix

theorem pairsOK_tail {bad : Char → Char → Bool} {a : Char} {t : List Char}
    (h : pairsOK bad (a :: t) = true) : pairsOK bad t = true := by
  cases t with
  | nil => rfl
  | cons b t2 =>
    rw [pairsOK] at h
    exact (Bool.and_eq_true _ _ |>.mp h).2

theorem pairsOK_cons_of {bad : Char → Char → Bool} {a : Char} {t : List Char}
    (h1 : ∀ b, t.head? = some b → bad a b = false) (h2 : pairsOK bad t = true) :
    pairsOK bad (a :: t) = true := by
  cases t with
  | nil => rfl
  | cons b t2 =>
    rw [pairsOK]
    simp [h1 b rfl, h2]

theorem pairsOK_head {bad : Char → Char → Bool} {a b : Char} {t : List Char}
    (h : pairsOK bad (a :: t) = true) (hb : t.head? = some b) : bad a b = false := by
  cases t with
  | nil => simp at hb
  | cons b2 t2 =>
    simp only [List.head?_cons, Option.some.injEq] at hb
    subst hb
    rw [pairsOK] at h
    simp only [Bool.and_eq_true, Bool.not_eq_true'] at h
    exact h.1

theorem pairsOK_append_of {bad : Char → Char → Bool} {xs ys : List Char}
    (hxs : pairsOK bad xs = true) (hys : pairsOK bad ys = true)
    (hb : ∀ a b, xs.getLast? = some a → ys.head? = some b → bad a b = false) :
    pairsOK bad (xs ++ ys) = true := by
  induction xs with
  | nil => simpa using hys
  | cons x xs ih =>
    cases xs with
    | nil =>
      simp only [List.cons_append, List.nil_append]
      apply pairsOK_cons_of
      · intro b hbb
        exact hb x b rfl hbb
      · exact hys
    | cons x2 xs2 =>
      rw [List.cons_append]
      apply pairsOK_cons_of
      · intro b hbb
        simp only [List.cons_append, List.head?_cons, Option.some.injEq] at hbb
        subst hbb
        exact pairsOK_head hxs rfl
      · refine ih (pairsOK_tail hxs) ?_
        intro a b ha hbb
        refine hb a b ?_ hbb
        rw [List.getLast?_cons_cons]
        exact ha

theorem pairsOK_append_right {bad : Char → Char → Bool} {xs ys : List Char}
    (h : pairsOK bad (xs ++ ys) = true) : pairsOK bad ys = true := by
  induction xs with
  | nil => simpa using h
  | cons x xs ih => exact ih (pairsOK_tail (by simpa using h))

theorem pairsOK_append_boundary {bad : Char → Char → Bool} {xs ys : List Char}
    {a b : Char} (h : pairsOK bad (xs ++ ys) = true) (ha : xs.getLast? = some a)
    (hb : ys.head? = some b) : bad a b = false := by
  induction xs with
  | nil => simp at ha
  | cons x xs ih =>
    cases xs with
    | nil =>
      simp only [List.getLast?_singleton, Option.some.injEq] at ha
      subst ha
      exact pairsOK_head (by simpa using h) hb
    | cons x2 xs2 =>
      rw [List.getLast?_cons_cons] at ha
      exact ih (pairsOK_tail (by simpa using h)) ha

theorem pairsOK_dropWhile {bad : Char → Char → Bool} {p : Char → Bool}
    {t : List Char} (h : pairsOK bad t = true) :
    pairsOK bad (t.dropWhile p) = true := by
  induction t with
  | nil => simpa using h
  | cons a t2 ih =>
    rw [List.dropWhile_cons]
    split
    · exact ih (pairsOK_tail h)
    · exact h

theorem dropWhile_head_neg {p : Char → Bool} {l r : List Char} {c : Char}
    (h : l.dropWhile p = c :: r) : p c = false := by
  induction l with
  | nil => simp at h
  | cons a t ih =>
    rw [List.dropWhile_cons] at h
    split at h
    · exact ih h
    · rename_i ha
      injection h with h1 h2
      subst h1
      simpa using ha

theorem punct_not_space {c : Char} (h : isPunctCh c = true) :
    isPySpace c = false := by
  rw [isPunctCh] at h
  simp only [Bool.or_eq_true, beq_iff_eq] at h
  rcases h with ((((h|h)|h)|h)|h)|h <;> subst h <;> decide

theorem punct_not_alnum {c : Char} (h : isPunctCh c = true) :
    isAlnumCh c = false := by
  rw [isPunctCh] at h
  simp only [Bool.or_eq_true, beq_iff_eq] at h
  rcases h with ((((h|h)|h)|h)|h)|h <;> subst h <;> decide

theorem spTab_space {c : Char} (h : isSpTab c = true) : isPySpace c = true := by
  rw [isSpTab] at h
  simp only [Bool.or_eq_true, beq_iff_eq] at h
  rcases h with h|h <;> subst h <;> decide

/-- Under `badSP`-freedom, a whitespace run cannot directly precede a
punctuation character: if `dropWhile` uncovers punctuation, there was no
run at all. -/
theorem dropWhile_punct_eq_self {t : List Char} {q : Char} {r : List Char}
    (hP : pairsOK badSP t = true) (h : t.dropWhile isPySpace = q :: r)
    (hq : isPunctCh q = true) : t = q :: r := by
  induction t with
  | nil => simp at h
  | cons a t2 ih =>
    by_cases ha : isPySpace a = true
    · rw [List.dropWhile_cons, if_pos ha] at h
      have ht2 := ih (pairsOK_tail hP) h
      subst ht2
      have hbad := pairsOK_head hP (b := q) rfl
      rw [badSP, ha, hq] at hbad
      simp at hbad
    · rw [List.dropWhile_cons, if_neg ha] at h
      exact h

end Spellfix

namespace Spellfix

/-- On text with no whitespace before punctuation, every `ELLIPSIS_RE`
match is a bare `...` and the substitution changes nothing. -/
theorem ellipsisSub_id {l : List Char} (hP : pairsOK badSP l = true) :
    ellipsisSub l = l := by
  induction l using ellipsisSub.induct with
  | case1 => rw [ellipsisSub]
  | case2 c cs rest h ih =>
    obtain ⟨s1, s2, h1, h2, h3⟩ := dotsMatch_eq_some.mp h
    have hs1 : pairsOK badSP s1 = true := by
      have h0 : pairsOK badSP ('.' :: s1) = true := by
        rw [← h1]
        exact hP
      exact pairsOK_tail h0
    have e1 : s1 = '.' :: s2 := dropWhile_punct_eq_self hs1 h2 (by decide)
    have hs2 : pairsOK badSP s2 = true := by
      have h0 : pairsOK badSP ('.' :: s2) = true := by
        rw [← e1]
        exact hs1
      exact pairsOK_tail h0
    have e2 : s2 = '.' :: rest := dropWhile_punct_eq_self hs2 h3 (by decide)
    have hrest : pairsOK badSP rest = true := by
      have h0 : pairsOK badSP ('.' :: rest) = true := by
        rw [← e2]
        exact hs2
      exact pairsOK_tail h0
    rw [ellipsisSub]
    split
    · rename_i rest2 heq
      have := (h.symm.trans heq)
      injection this with this
      subst this
      rw [ih hrest]
      rw [h1, e1, e2]
    · rename_i heq
      rw [heq] at h
      exact absurd h (by simp)
  | case3 c cs h ih =>
    rw [ellipsisSub]
    split
    · rename_i rest2 heq
      rw [heq] at h
      exact absurd h (by simp)
    · rw [ih (pairsOK_tail hP)]

/-- On text with no whitespace before punctuation,
`SPACE_BEFORE_PUNCT_RE` has no match and the substitution changes
nothing. -/
theorem sbpSub_id {l : List Char} (hP : pairsOK badSP l = true) :
    sbpSub l = l := by
  induction l with
  | nil => rw [sbpSub]
  | cons c cs ih =>
    rw [sbpSub]
    rw [if_neg ?_]
    · rw [ih (pairsOK_tail hP)]
    · intro hcond
      simp only [Bool.and_eq_true] at hcond
      obtain ⟨hc, hq⟩ := hcond
      rcases hdw : cs.dropWhile isPySpace with _ | ⟨p, rs⟩
      · rw [hdw] at hq
        simp [Option.any] at hq
      · rw [hdw] at hq
        simp only [List.head?_cons, Option.any] at hq
        have := dropWhile_punct_eq_self (pairsOK_tail hP) hdw hq
        subst this
        have hbad := pairsOK_head hP (show (p :: rs).head? = some p from rfl)
        rw [badSP, hc, hq] at hbad
        simp at hbad

/-- On text with no punctuation-alphanumeric adjacency,
`SPACE_AFTER_PUNCT_RE` has no match and the substitution changes
nothing. -/
theorem sapSub_id {l : List Char} (hP : pairsOK badPA l = true) :
    sapSub l = l := by
  induction l using sapSub.induct with
  | case1 => rfl
  | case2 c => rfl
  | case3 c d cs hcd ih =>
    have hbad := pairsOK_head hP (show (d :: cs).head? = some d from rfl)
    rw [badPA] at hbad
    rw [hbad] at hcd
    simp at hcd
  | case4 c d cs hcd ih =>
    rw [sapSub, if_neg hcd]
    rw [ih (pairsOK_tail hP)]

/-- On text with no punctuation-alphanumeric adjacency,
`SPACE_AFTER_DOT_RE` (dot before letter, a special case of the former)
has no match and the substitution changes nothing. -/
theorem sadSub_id {l : List Char} (hP : pairsOK badPA l = true) :
    sadSub l = l := by
  induction l using sadSub.induct with
  | case1 => rfl
  | case2 c => rfl
  | case3 c d cs hcd ih =>
    simp only [Bool.and_eq_true, beq_iff_eq] at hcd
    obtain ⟨hc, hd⟩ := hcd
    subst hc
    have hbad := pairsOK_head hP (show (d :: cs).head? = some d from rfl)
    rw [badPA] at hbad
    have hal : isAlnumCh d = true := by
      rw [isAlnumCh, Char.isAlphanum, hd]
      simp
    rw [hal] at hbad
    simp [isPunctCh] at hbad
  | case4 c d cs hcd ih =>
    rw [sadSub, if_neg hcd]
    rw [ih (pairsOK_tail hP)]

/-- On text with no two adjacent spaces/tabs, `MULTISPACE_RE` has no
match and the substitution changes nothing. -/
theorem msSub_id {l : List Char} (hP : pairsOK badTT l = true) :
    msSub l = l := by
  induction l using msSub.induct with
  | case1 => rw [msSub]
  | case2 c cs hc hany ih =>
    rcases cs with _ | ⟨d, cs2⟩
    · simp at hany
    · simp only [List.head?_cons, Option.any_some] at hany
      have hbad := pairsOK_head hP (show (d :: cs2).head? = some d from rfl)
      rw [badTT, hc, hany] at hbad
      simp at hbad
  | case3 c cs hc hany ih =>
    rw [msSub, if_pos hc, if_neg hany]
    rw [ih (pairsOK_tail hP)]
  | case4 c cs hc ih =>
    rw [msSub, if_neg hc]
    rw [ih (pairsOK_tail hP)]

end Spellfix

namespace Spellfix

theorem mem_of_getLast?_eq {l : List Char} {a : Char}
    (h : l.getLast? = some a) : a ∈ l := by
  induction l with
  | nil => simp at h
  | cons x xs ih =>
    cases xs with
    | nil =>
      simp only [List.getLast?_singleton, Option.some.injEq] at h
      subst h
      exact List.mem_singleton_self _
    | cons x2 xs2 =>
      rw [List.getLast?_cons_cons] at h
      exact List.mem_cons_of_mem _ (ih h)

/-- If no whitespace-run of `l` is followed by punctuation, the first
character that `sbpSub` emits is not punctuation. -/
theorem sbpSub_head_not_punct {l : List Char}
    (h : ∀ q, (l.dropWhile isPySpace).head? = some q → isPunctCh q = false) :
    ∀ b, (sbpSub l).head? = some b → isPunctCh b = false := by
  induction l with
  | nil =>
    intro b hb
    rw [sbpSub] at hb
    simp at hb
  | cons c cs ih =>
    intro b hb
    rw [sbpSub] at hb
    by_cases hc : isPySpace c = true
    · have hdw : (c :: cs).dropWhile isPySpace = cs.dropWhile isPySpace := by
        rw [List.dropWhile_cons, if_pos hc]
      have hcs : ∀ q, (cs.dropWhile isPySpace).head? = some q → isPunctCh q = false := by
        intro q hq
        refine h q ?_
        rw [hdw]
        exact hq
      have hcond : ¬((isPySpace c && (cs.dropWhile isPySpace).head?.any isPunctCh) = true) := by
        intro hcond
        simp only [Bool.and_eq_true] at hcond
        rcases hd : (cs.dropWhile isPySpace).head? with _ | q
        · rw [hd] at hcond
          simp [Option.any] at hcond
        · rw [hd] at hcond
          rw [Option.any_some] at hcond
          rw [hcs q hd] at hcond
          simp at hcond
      rw [if_neg hcond] at hb
      simp only [List.head?_cons, Option.some.injEq] at hb
      subst hb
      cases hpc : isPunctCh c with
      | false => rfl
      | true => exact absurd hc (by rw [punct_not_space hpc]; simp)
    · have hcond : ¬((isPySpace c && (cs.dropWhile isPySpace).head?.any isPunctCh) = true) := by
        intro hcond
        simp only [Bool.and_eq_true] at hcond
        exact hc hcond.1
      rw [if_neg hcond] at hb
      simp only [List.head?_cons, Option.some.injEq] at hb
      subst hb
      refine h c ?_
      rw [List.dropWhile_cons, if_neg hc]
      rfl

/-- `sbpSub` establishes the no-whitespace-before-punctuation normal
form on every input. -/
theorem sbpSub_pairsOK (l : List Char) : pairsOK badSP (sbpSub l) = true := by
  induction l with
  | nil => rw [sbpSub]; rfl
  | cons c cs ih =>
    rw [sbpSub]
    split
    · exact ih
    · rename_i hcond
      apply pairsOK_cons_of
      · intro b hb
        rw [badSP]
        by_cases hc : isPySpace c = true
        · have hnp : ∀ q, (cs.dropWhile isPySpace).head? = some q → isPunctCh q = false := by
            intro q hq
            cases hpq : isPunctCh q with
            | false => rfl
            | true =>
              refine absurd ?_ hcond
              simp only [Bool.and_eq_true]
              refine ⟨hc, ?_⟩
              rw [hq, Option.any_some, hpq]
          rw [sbpSub_head_not_punct hnp b hb]
          simp
        · simp only [Bool.not_eq_true] at hc
          rw [hc]
          simp
      · exact ih

/-- `sapSub` always emits the input's first character first. -/
theorem sapSub_head (l : List Char) : (sapSub l).head? = l.head? := by
  induction l using sapSub.induct with
  | case1 => rfl
  | case2 c => rfl
  | case3 c d cs hcd ih =>
    rw [sapSub, if_pos hcd]
    simp only [List.head?_cons]
  | case4 c d cs hcd ih =>
    rw [sapSub, if_neg hcd]
    simp only [List.head?_cons]

/-- `sapSub` establishes the no-punctuation-before-alphanumeric normal
form on every input. -/
theorem sapSub_pairsOK (l : List Char) : pairsOK badPA (sapSub l) = true := by
  induction l using sapSub.induct with
  | case1 => rfl
  | case2 c => rfl
  | case3 c d cs hcd ih =>
    rw [sapSub, if_pos hcd]
    simp only [Bool.and_eq_true] at hcd
    obtain ⟨hc, hd⟩ := hcd
    apply pairsOK_cons_of
    · intro b hb
      simp only [List.head?_cons, Option.some.injEq] at hb
      subst hb
      rw [badPA]
      simp [show isAlnumCh ' ' = false by decide]
    · apply pairsOK_cons_of
      · intro b hb
        simp only [List.head?_cons, Option.some.injEq] at hb
        subst hb
        rw [badPA]
        simp [show isPunctCh ' ' = false by decide]
      · apply pairsOK_cons_of
        · intro b hb
          rw [badPA]
          cases hpd : isPunctCh d with
          | false => simp [hpd]
          | true => exact absurd hd (by rw [punct_not_alnum hpd]; simp)
        · exact ih
  | case4 c d cs hcd ih =>
    rw [sapSub, if_neg hcd]
    apply pairsOK_cons_of
    · intro b hb
      rw [sapSub_head] at hb
      simp only [List.head?_cons, Option.some.injEq] at hb
      subst hb
      rw [badPA]
      simpa using hcd
    · exact ih

/-- `sapSub` preserves the no-whitespace-before-punctuation normal
form. -/
theorem sapSub_pairsOK_SP {l : List Char} (hP : pairsOK badSP l = true) :
    pairsOK badSP (sapSub l) = true := by
  induction l using sapSub.induct with
  | case1 => rfl
  | case2 c => rfl
  | case3 c d cs hcd ih =>
    rw [sapSub, if_pos hcd]
    simp only [Bool.and_eq_true] at hcd
    obtain ⟨hc, hd⟩ := hcd
    apply pairsOK_cons_of
    · intro b hb
      simp only [List.head?_cons, Option.some.injEq] at hb
      subst hb
      rw [badSP]
      simp [show isPunctCh ' ' = false by decide]
    · apply pairsOK_cons_of
      · intro b hb
        simp only [List.head?_cons, Option.some.injEq] at hb
        subst hb
        rw [badSP]
        cases hpd : isPunctCh d with
        | false => simp [hpd]
        | true => exact absurd hd (by rw [punct_not_alnum hpd]; simp)
      · apply pairsOK_cons_of
        · intro b hb
          rw [sapSub_head] at hb
          exact pairsOK_head (pairsOK_tail hP) hb
        · exact ih (pairsOK_tail (pairsOK_tail hP))
  | case4 c d cs hcd ih =>
    rw [sapSub, if_neg hcd]
    apply pairsOK_cons_of
    · intro b hb
      rw [sapSub_head] at hb
      exact pairsOK_head hP hb
    · exact ih (pairsOK_tail hP)

end Spellfix

namespace Spellfix

/-- The first character `msSub` emits is the input's first character or
the single space of a collapsed run. -/
theorem msSub_head {l : List Char} {b : Char} (h : (msSub l).head? = some b) :
    l.head? = some b ∨ b = ' ' := by
  rcases l with _ | ⟨c, cs⟩
  · rw [msSub] at h
    simp at h
  · rw [msSub] at h
    split at h
    · split at h
      · simp only [List.head?_cons, Option.some.injEq] at h
        right
        exact h.symm
      · simp only [List.head?_cons, Option.some.injEq] at h
        subst h
        left
        rfl
    · simp only [List.head?_cons, Option.some.injEq] at h
      subst h
      left
      rfl

/-- If `msSub` emits a space/tab first, the input began with a
space/tab. -/
theorem msSub_head_spTab {l : List Char} {b : Char} (h : (msSub l).head? = some b)
    (hb : isSpTab b = true) : ∃ d, l.head? = some d ∧ isSpTab d = true := by
  rcases l with _ | ⟨c, cs⟩
  · rw [msSub] at h
    simp at h
  · rw [msSub] at h
    split at h
    · rename_i hc
      exact ⟨c, rfl, hc⟩
    · rename_i hc
      simp only [List.head?_cons, Option.some.injEq] at h
      exact ⟨c, rfl, by rw [h]; exact hb⟩

/-- `msSub` establishes the no-adjacent-spaces normal form on every
input. -/
theorem msSub_pairsOK (l : List Char) : pairsOK badTT (msSub l) = true := by
  induction l using msSub.induct with
  | case1 => rw [msSub]; rfl
  | case2 c cs hc hany ih =>
    rw [msSub, if_pos hc, if_pos hany]
    apply pairsOK_cons_of
    · intro b hb
      rw [badTT]
      cases hsb : isSpTab b with
      | false => simp [hsb]
      | true =>
        obtain ⟨d, hd, hds⟩ := msSub_head_spTab hb hsb
        rcases hdw : cs.dropWhile isSpTab with _ | ⟨q, rs⟩
        · rw [hdw] at hd
          simp at hd
        · rw [hdw] at hd
          simp only [List.head?_cons, Option.some.injEq] at hd
          subst hd
          rw [dropWhile_head_neg hdw] at hds
          simp at hds
    · exact ih
  | case3 c cs hc hany ih =>
    rw [msSub, if_pos hc, if_neg hany]
    apply pairsOK_cons_of
    · intro b hb
      rw [badTT]
      cases hsb : isSpTab b with
      | false => simp [hsb]
      | true =>
        obtain ⟨d, hd, hds⟩ := msSub_head_spTab hb hsb
        refine absurd ?_ hany
        rw [hd, Option.any_some, hds]
    · exact ih
  | case4 c cs hc ih =>
    rw [msSub, if_neg hc]
    apply pairsOK_cons_of
    · intro b hb
      rw [badTT]
      simp only [Bool.not_eq_true] at hc
      rw [hc]
      simp
    · exact ih

/-- `msSub` preserves any adjacent-pair invariant `bad` for which a
single space is never a bad right neighbour, and for which a bad pair
headed by a space is bad whatever space/tab the left neighbour is. -/
theorem msSub_pairsOK_pres {bad : Char → Char → Bool} {l : List Char}
    (hA : ∀ a, bad a ' ' = false)
    (hB : ∀ b, bad ' ' b = true → ∀ x, isSpTab x = true → bad x b = true)
    (hP : pairsOK bad l = true) : pairsOK bad (msSub l) = true := by
  induction l using msSub.induct with
  | case1 => rw [msSub]; rfl
  | case2 c cs hc hany ih =>
    have hsplit : c :: cs = (c :: cs.takeWhile isSpTab) ++ cs.dropWhile isSpTab := by
      rw [List.cons_append, List.takeWhile_append_dropWhile]
    have hP2 : pairsOK bad ((c :: cs.takeWhile isSpTab) ++ cs.dropWhile isSpTab) = true := by
      rw [← hsplit]
      exact hP
    rw [msSub, if_pos hc, if_pos hany]
    apply pairsOK_cons_of
    · intro b hb
      cases hbb : bad ' ' b with
      | false => rfl
      | true =>
        exfalso
        rcases msSub_head hb with hb2 | hb2
        · obtain ⟨a, ha⟩ : ∃ a, (c :: cs.takeWhile isSpTab).getLast? = some a :=
            ⟨_, List.getLast?_eq_getLast _ (by simp)⟩
          have haS : isSpTab a = true := by
            rcases List.mem_cons.mp (mem_of_getLast?_eq ha) with hm | hm
            · subst hm
              exact hc
            · exact List.mem_takeWhile_imp hm
          have hbound := pairsOK_append_boundary hP2 ha hb2
          have := hB b hbb a haS
          rw [hbound] at this
          simp at this
        · subst hb2
          rw [hA ' '] at hbb
          simp at hbb
    · exact ih (pairsOK_append_right hP2)
  | case3 c cs hc hany ih =>
    rw [msSub, if_pos hc, if_neg hany]
    apply pairsOK_cons_of
    · intro b hb
      rcases msSub_head hb with hb2 | hb2
      · exact pairsOK_head hP hb2
      · subst hb2
        exact hA c
    · exact ih (pairsOK_tail hP)
  | case4 c cs hc ih =>
    rw [msSub, if_neg hc]
    apply pairsOK_cons_of
    · intro b hb
      rcases msSub_head hb with hb2 | hb2
      · exact pairsOK_head hP hb2
      · subst hb2
        exact hA c
    · exact ih (pairsOK_tail hP)

end Spellfix

namespace Spellfix

/-- The list-level composition of the five spacing substitutions is
idempotent: its output satisfies the three normal forms (no whitespace
before punctuation, no punctuation-alphanumeric adjacency, no adjacent
spaces/tabs), on which each substitution is the identity. -/
theorem cleanupL_idem (l : List Char) :
    msSub (sadSub (sapSub (sbpSub (ellipsisSub
      (msSub (sadSub (sapSub (sbpSub (ellipsisSub l))))))))) =
    msSub (sadSub (sapSub (sbpSub (ellipsisSub l)))) := by
  have hASP : ∀ a, badSP a ' ' = false := by
    intro a
    rw [badSP]
    simp [show isPunctCh ' ' = false by decide]
  have hBSP : ∀ b, badSP ' ' b = true → ∀ x, isSpTab x = true → badSP x b = true := by
    intro b hb x hx
    rw [badSP] at hb ⊢
    simp only [show isPySpace ' ' = true by decide, Bool.true_and] at hb
    rw [spTab_space hx, hb]
    rfl
  have hAPA : ∀ a, badPA a ' ' = false := by
    intro a
    rw [badPA]
    simp [show isAlnumCh ' ' = false by decide]
  have hBPA : ∀ b, badPA ' ' b = true → ∀ x, isSpTab x = true → badPA x b = true := by
    intro b hb x hx
    rw [badPA] at hb
    simp [show isPunctCh ' ' = false by decide] at hb
  have h2 : pairsOK badSP (sbpSub (ellipsisSub l)) = true := sbpSub_pairsOK _
  have h3 : pairsOK badPA (sapSub (sbpSub (ellipsisSub l))) = true := sapSub_pairsOK _
  have h2b : pairsOK badSP (sapSub (sbpSub (ellipsisSub l))) = true := sapSub_pairsOK_SP h2
  rw [sadSub_id h3]
  have h5 : pairsOK badTT (msSub (sapSub (sbpSub (ellipsisSub l)))) = true := msSub_pairsOK _
  have h2c : pairsOK badSP (msSub (sapSub (sbpSub (ellipsisSub l)))) = true :=
    msSub_pairsOK_pres hASP hBSP h2b
  have h3c : pairsOK badPA (msSub (sapSub (sbpSub (ellipsisSub l)))) = true :=
    msSub_pairsOK_pres hAPA hBPA h3
  rw [ellipsisSub_id h2c, sbpSub_id h2c, sapSub_id h3c, sadSub_id h3c, msSub_id h5]

end Spellfix

namespace Spellfix

theorem length_eq_zero_iff {s : String} : s.length = 0 ↔ s = "" := by
  constructor
  · intro h
    have : s.data = [] := List.length_eq_zero.mp h
    have he : String.mk s.data = String.mk [] := by rw [this]
    exact he
  · intro h
    subst h
    rfl

theorem join_singleton (p : String) : String.join [p] = p := by
  show "" ++ p = p
  exact String.empty_append p

theorem foldl_append_hoist (ps : List String) :
    ∀ a : String, ps.foldl (· ++ ·) a = a ++ String.join ps := by
  induction ps with
  | nil =>
    intro a
    show a = a ++ ""
    rw [String.append_empty]
  | cons q qs ih =>
    intro a
    show qs.foldl (· ++ ·) (a ++ q) = a ++ String.join (q :: qs)
    rw [ih (a ++ q)]
    have hq : String.join (q :: qs) = ("" ++ q) ++ String.join qs := by
      show qs.foldl (· ++ ·) ("" ++ q) = _
      rw [ih ("" ++ q)]
    rw [hq, String.empty_append, String.append_assoc]

theorem join_cons_str (p : String) (ps : List String) :
    String.join (p :: ps) = p ++ String.join ps := by
  show ps.foldl (· ++ ·) ("" ++ p) = p ++ String.join ps
  rw [foldl_append_hoist, String.empty_append]

end Spellfix

namespace Spellfix

theorem join_append_singleton (acc : List String) (p : String) :
    String.join (acc ++ [p]) = String.join acc ++ p := by
  induction acc with
  | nil =>
    rw [List.nil_append, join_singleton]
    show p = "" ++ p
    rw [String.empty_append]
  | cons a t ih =>
    rw [List.cons_append, join_cons_str, ih, join_cons_str, String.append_assoc]

theorem append_eq_empty {a b : String} (h : a ++ b = "") : a = "" ∧ b = "" := by
  have hl : (a ++ b).length = 0 := by rw [h]; rfl
  rw [String.length_append] at hl
  exact ⟨length_eq_zero_iff.mp (by omega), length_eq_zero_iff.mp (by omega)⟩

theorem join_eq_empty {l : List String} (h : String.join l = "") :
    ∀ a ∈ l, a = "" := by
  induction l with
  | nil => intro a ha; simp at ha
  | cons x xs ih =>
    rw [join_cons_str] at h
    obtain ⟨h1, h2⟩ := append_eq_empty h
    intro a ha
    rcases List.mem_cons.mp ha with hm | hm
    · subst hm; exact h1
    · exact ih h2 a hm

theorem splitGo_join (fuel : Nat) (s : List Char) : (splitGo fuel s).flatten = s := by
  induction fuel generalizing s with
  | zero =>
    rw [splitGo]
    simp
  | succ n ih =>
    rw [splitGo]
    cases hfs : findSep s with
    | none => simp
    | some v =>
      obtain ⟨p, sep, r⟩ := v
      obtain ⟨hdec, hne⟩ := findSep_decomp hfs
      show (p :: sep :: splitGo n r).flatten = s
      rw [List.join_cons, List.join_cons, ih r, hdec, List.append_assoc]

theorem stringJoin_map_mk (l : List (List Char)) :
    String.join (l.map String.mk) = String.mk l.flatten := by
  induction l with
  | nil => rfl
  | cons x xs ih =>
    rw [List.map_cons, join_cons_str, ih, List.join_cons]
    rfl

theorem splitSep_join (text : String) : String.join (splitSep text) = text := by
  rw [splitSep, stringJoin_map_mk, splitL, splitGo_join]

theorem chunkGo_concat (maxChars : Nat) (ps : List String) (cur : String) :
    String.join (chunkGo maxChars ps cur) = cur ++ String.join ps := by
  induction ps generalizing cur with
  | nil =>
    rw [chunkGo]
    split
    · rename_i h
      have : cur = "" := length_eq_zero_iff.mp h
      subst this
      rfl
    · rw [join_singleton]
      show cur = cur ++ ""
      rw [String.append_empty]
  | cons p ps ih =>
    rw [chunkGo]
    split
    · rw [join_cons_str, ih p, join_cons_str]
    · rw [ih (cur ++ p), join_cons_str, String.append_assoc]

theorem chunkGrp_map (maxChars : Nat) (ps : List String) (acc : List String) :
    chunkGo maxChars ps (String.join acc) =
      (chunkGrp maxChars ps acc).map String.join := by
  induction ps generalizing acc with
  | nil =>
    rw [chunkGo, chunkGrp]
    split
    · rfl
    · rfl
  | cons p ps ih =>
    rw [chunkGo, chunkGrp]
    split
    · rw [List.map_cons]
      have := ih [p]
      rw [join_singleton] at this
      rw [this]
    · have := ih (acc ++ [p])
      rw [join_append_singleton] at this
      rw [this]

theorem chunkGrp_join (maxChars : Nat) (ps : List String) (acc : List String) :
    ∃ rest, (chunkGrp maxChars ps acc).flatten ++ rest = acc ++ ps ∧
      ∀ r ∈ rest, r = "" := by
  induction ps generalizing acc with
  | nil =>
    rw [chunkGrp]
    split
    · rename_i h
      exact ⟨acc, by simp, join_eq_empty (length_eq_zero_iff.mp h)⟩
    · exact ⟨[], by simp, by simp⟩
  | cons p ps ih =>
    rw [chunkGrp]
    split
    · obtain ⟨rest, h1, h2⟩ := ih [p]
      refine ⟨rest, ?_, h2⟩
      rw [List.join_cons, List.append_assoc, h1]
      rfl
    · obtain ⟨rest, h1, h2⟩ := ih (acc ++ [p])
      refine ⟨rest, ?_, h2⟩
      rw [h1, List.append_assoc]
      rfl

theorem chunkGo_size (maxChars : Nat) (allParts : List String) :
    ∀ ps cur, (∀ p ∈ ps, p ∈ allParts) →
      (cur.length ≤ maxChars ∨ cur ∈ allParts) →
      ∀ c ∈ chunkGo maxChars ps cur, c.length ≤ maxChars ∨ c ∈ allParts := by
  intro ps
  induction ps with
  | nil =>
    intro cur hps hcur c hc
    rw [chunkGo] at hc
    split at hc
    · simp at hc
    · rw [List.mem_singleton] at hc
      subst hc
      exact hcur
  | cons p ps ih =>
    intro cur hps hcur c hc
    rw [chunkGo] at hc
    split at hc
    · rcases List.mem_cons.mp hc with hm | hm
      · subst hm
        exact hcur
      · refine ih p (fun q hq => hps q (List.mem_cons_of_mem _ hq)) ?_ c hm
        exact Or.inr (hps p (List.mem_cons_self _ _))
    · rename_i hcond
      refine ih (cur ++ p) (fun q hq => hps q (List.mem_cons_of_mem _ hq)) ?_ c hc
      rw [Decidable.not_and_iff_or_not] at hcond
      rcases hcond with hlen | hemp
      · left
        rw [String.length_append]
        omega
      · have : cur = "" := length_eq_zero_iff.mp (by simpa using hemp)
        subst this
        right
        rw [String.empty_append]
        exact hps p (List.mem_cons_self _ _)

end Spellfix

namespace Spellfix

theorem pyBound_nonneg_le {n : Nat} {i : Int} (h0 : 0 ≤ i) (hn : i ≤ (n : Int)) :
    pyBound n i = i.toNat := by
  rw [pyBound, if_neg (by omega)]
  have : i.toNat ≤ n := by omega
  omega

theorem pySlice_take {t : List Char} {a : Int} (h0 : 0 ≤ a)
    (hn : a ≤ (t.length : Int)) : pySlice t 0 a = t.take a.toNat := by
  rw [pySlice, pyBound_nonneg_le h0 hn]
  rw [show pyBound t.length 0 = 0 from by rw [pyBound]; simp]
  rw [List.drop_zero]

theorem pySlice_suffix {t : List Char} {e : Int} (h0 : 0 ≤ e)
    (hn : e ≤ (t.length : Int)) :
    pySlice t e t.length = t.drop e.toNat := by
  rw [pySlice, pyBound_nonneg_le h0 hn]
  rw [show pyBound t.length t.length = t.length from by
    rw [pyBound_nonneg_le (by omega) (by omega)]
    omega]
  rw [List.take_length]

theorem pySlice_length {t : List Char} {a b : Int} (h0 : 0 ≤ a) (hab : a ≤ b)
    (hn : b ≤ (t.length : Int)) :
    (pySlice t a b).length = b.toNat - a.toNat := by
  rw [pySlice, pyBound_nonneg_le (by omega) hn, pyBound_nonneg_le h0 (by omega)]
  rw [List.length_drop, List.length_take]
  omega

theorem pySlice_middle {t : List Char} {a b : Int} (h0 : 0 ≤ a) (hab : a ≤ b)
    (hn : b ≤ (t.length : Int)) :
    pySlice t a b = (t.take b.toNat).drop a.toNat := by
  rw [pySlice, pyBound_nonneg_le (by omega) hn, pyBound_nonneg_le h0 (by omega)]

end Spellfix

namespace Spellfix

theorem processChunks_fst (lt : String → Except String (List LTMatchJ))
    (l : List String) :
    (processChunks lt l).1 = l.map fun c => (chunkStep lt c).1 := by
  induction l with
  | nil => rfl
  | cons c cs ih =>
    rw [processChunks, List.map_cons]
    rw [← ih]

theorem processChunks_diag_mem (lt : String → Except String (List LTMatchJ))
    {l : List String} {ch : String} (hm : ch ∈ l) {d : String}
    (hd : d ∈ (chunkStep lt ch).2) : d ∈ (processChunks lt l).2 := by
  induction l with
  | nil => simp at hm
  | cons c cs ih =>
    rw [processChunks]
    rcases List.mem_cons.mp hm with hmc | hmc
    · subst hmc
      exact List.mem_append_left _ hd
    · exact List.mem_append_right _ (ih hmc)

theorem getElem?_mem {l : List String} {i : Nat} {a : String}
    (h : l[i]? = some a) : a ∈ l := by
  induction l generalizing i with
  | nil => simp at h
  | cons x xs ih =>
    cases i with
    | zero =>
      simp only [List.getElem?_cons_zero, Option.some.injEq] at h
      subst h
      exact List.mem_cons_self _ _
    | succ n =>
      rw [List.getElem?_cons_succ] at h
      exact List.mem_cons_of_mem _ (ih h)

end Spellfix

namespace Spellfix

/-- C4: Misspelling-only filter with offset shift.  (1) A match whose
rule issueType is not "misspelling" or that has no replacement
candidates never alters the text or the shift.  (2) An applied match
rewrites `text[:offset+shift] + first replacement +
text[offset+shift+length:]` and contributes
`len(replacement) - length` to the shift seen by all later matches.
(3) With the shift-adjusted span in range, the two slices kept are
exactly the prefix before the span and the suffix after it, and the
replaced slice has exactly the match's length. -/
theorem apply_misspellings_only_filter_and_shift :
    (∀ (t : List Char) (sh : Int) (m : LTMatch) (rest : List LTMatch),
      (m.issueType ≠ some "misspelling" ∨ m.replacements = []) →
        applyGo t sh (m :: rest) = applyGo t sh rest) ∧
    (∀ (t : List Char) (sh : Int) (m : LTMatch) (r : Repl) (rs : List Repl)
        (rest : List LTMatch),
      m.issueType = some "misspelling" → m.replacements = r :: rs →
      ¬('\uE000' ∈ pySlice t (m.offset + sh) (m.offset + sh + m.length)) →
      ¬(lowerL (pySlice t (m.offset + sh) (m.offset + sh + m.length)) =
            lowerL r.value.data ∧
          pySlice t (m.offset + sh) (m.offset + sh + m.length) ≠ r.value.data) →
      applyGo t sh (m :: rest) =
        applyGo
          (pySlice t 0 (m.offset + sh) ++ r.value.data ++
            pySlice t (m.offset + sh + m.length) t.length)
          (sh + (r.value.data.length : Int) - m.length) rest) ∧
    (∀ (t : List Char) (sh : Int) (m : LTMatch),
      0 ≤ m.offset + sh → 0 ≤ m.length →
      m.offset + sh + m.length ≤ (t.length : Int) →
      pySlice t 0 (m.offset + sh) = t.take (m.offset + sh).toNat ∧
      pySlice t (m.offset + sh + m.length) t.length =
        t.drop (m.offset + sh + m.length).toNat ∧
      (pySlice t (m.offset + sh) (m.offset + sh + m.length)).length =
        m.length.toNat) := by
  refine ⟨?_, ?_, ?_⟩
  · rintro t sh m rest (hA | hB)
    · rw [applyGo, if_pos hA]
    · rw [applyGo]
      by_cases hI : m.issueType ≠ some "misspelling"
      · rw [if_pos hI]
      · rw [if_neg hI, hB]
  · intro t sh m r rs rest h1 h2 h3 h4
    rw [applyGo, if_neg (by rw [h1]; simp)]
    simp only [h2]
    rw [if_neg h3, if_neg h4]
  · intro t sh m ha hl hb
    refine ⟨pySlice_take ha (by omega), pySlice_suffix (by omega) hb, ?_⟩
    rw [pySlice_length ha (by omega) hb]
    omega

/-- Witness for C4 at the spec's example: a grammar match leaves the
text alone; the misspelling match "teh" -> "the" at offset 2 rewrites
the slice and shifts by `3 - 3`. -/
theorem apply_misspellings_only_filter_and_shift_witness :
    applyGo "a teh b".data 0 [⟨some "grammar", [⟨"x"⟩], 2, 3⟩] =
      applyGo "a teh b".data 0 [] ∧
    applyGo "a teh b".data 0 [⟨some "misspelling", [⟨"the"⟩], 2, 3⟩] =
      applyGo
        (pySlice "a teh b".data 0 (2 + 0) ++ "the".data ++
          pySlice "a teh b".data (2 + 0 + 3) "a teh b".data.length)
        (0 + ("the".data.length : Int) - 3) [] ∧
    (pySlice "a teh b".data (2 + 0) (2 + 0 + 3)).length = (3 : Int).toNat :=
  ⟨apply_misspellings_only_filter_and_shift.1 "a teh b".data 0 _ []
      (Or.inl (by decide)),
   apply_misspellings_only_filter_and_shift.2.1 "a teh b".data 0 _ _ [] []
      rfl rfl (by decide) (by decide),
   (apply_misspellings_only_filter_and_shift.2.2 "a teh b".data 0
      ⟨some "misspelling", [⟨"the"⟩], 2, 3⟩ (by decide) (by decide)
      (by decide)).2.2⟩

/-- C5: A match whose targeted slice and first replacement agree after
lowercasing but differ as written is skipped: text and shift pass to
the remaining matches unchanged. -/
theorem apply_misspellings_only_case_only_skip
    (t : List Char) (sh : Int) (m : LTMatch) (r : Repl) (rs : List Repl)
    (rest : List LTMatch)
    (h1 : m.issueType = some "misspelling") (h2 : m.replacements = r :: rs)
    (h3 : lowerL (pySlice t (m.offset + sh) (m.offset + sh + m.length)) =
      lowerL r.value.data)
    (h4 : pySlice t (m.offset + sh) (m.offset + sh + m.length) ≠ r.value.data) :
    applyGo t sh (m :: rest) = applyGo t sh rest := by
  rw [applyGo, if_neg (by rw [h1]; simp)]
  simp only [h2]
  by_cases hE : '\uE000' ∈ pySlice t (m.offset + sh) (m.offset + sh + m.length)
  · rw [if_pos hE]
  · rw [if_neg hE, if_pos ⟨h3, h4⟩]

/-- Witness for C5 at the spec's example "Hello" -> "hello" and at the
non-ASCII case-only pair "\u00C9T\u00C9" -> "\u00E9t\u00E9". -/
theorem apply_misspellings_only_case_only_skip_witness :
    (applyGo "Hello x".data 0 [⟨some "misspelling", [⟨"hello"⟩], 0, 5⟩] =
      applyGo "Hello x".data 0 []) ∧
    (applyGo "\u00C9T\u00C9 x".data 0
        [⟨some "misspelling", [⟨"\u00E9t\u00E9"⟩], 0, 3⟩] =
      applyGo "\u00C9T\u00C9 x".data 0 []) :=
  ⟨apply_misspellings_only_case_only_skip "Hello x".data 0 _ _ [] [] rfl rfl
      (by decide) (by decide),
   apply_misspellings_only_case_only_skip "\u00C9T\u00C9 x".data 0 _ _ [] []
      rfl rfl (by decide) (by decide)⟩

/-- C6 (counterexample): a match whose span lies strictly inside the
digit run of a placeholder token overlaps the placeholder but does not
contain U+E000, so it is applied and the placeholder is modified,
contrary to the claim that any overlapping match is skipped. -/
theorem placeholder_overlap_match_applied :
    apply_misspellings_only "\uE00012\uE000ok"
        [⟨some "misspelling", [⟨"zz"⟩], 1, 2⟩] = "\uE000zz\uE000ok" ∧
    ("\uE000zz\uE000ok" : String) ≠ "\uE00012\uE000ok" := by
  exact ⟨by decide, by decide⟩

/-- C6 (amended): a match whose shift-adjusted slice contains the
placeholder sentinel U+E000 is skipped, leaving text and shift
unchanged. -/
theorem placeholder_char_overlap_skip
    (t : List Char) (sh : Int) (m : LTMatch) (rest : List LTMatch)
    (hE : '\uE000' ∈ pySlice t (m.offset + sh) (m.offset + sh + m.length)) :
    applyGo t sh (m :: rest) = applyGo t sh rest := by
  rw [applyGo]
  by_cases hI : m.issueType ≠ some "misspelling"
  · rw [if_pos hI]
  · rw [if_neg hI]
    cases hR : m.replacements with
    | nil => rfl
    | cons r rs => simp [hE]

/-- Witness for the amended C6: a span covering a whole placeholder
token is skipped. -/
theorem placeholder_char_overlap_skip_witness :
    applyGo "\uE0001\uE000bc".data 0 [⟨some "misspelling", [⟨"zz"⟩], 0, 3⟩] =
      applyGo "\uE0001\uE000bc".data 0 [] :=
  placeholder_char_overlap_skip "\uE0001\uE000bc".data 0 _ [] (by decide)

/-- C10: On matches that carry integer offset and length and whose
replacement entries carry a string value, `apply_misspellings_only`
never reaches a raising access, whatever the offsets are (negative,
out of range, overlapping, unsorted): the result is always produced. -/
theorem apply_misspellings_only_total_on_wellformed
    (t : List Char) (sh : Int) (ms : List LTMatchJ)
    (h : ∀ m ∈ ms, m.offset.isSome ∧ m.length.isSome ∧
      ∀ r ∈ m.replacements, r.value.isSome) :
    (applyJGo t sh ms).isSome := by
  induction ms generalizing t sh with
  | nil => rw [applyJGo]; rfl
  | cons m rest ih =>
    have hrest : ∀ m2 ∈ rest, m2.offset.isSome ∧ m2.length.isSome ∧
        ∀ r ∈ m2.replacements, r.value.isSome :=
      fun m2 hm2 => h m2 (List.mem_cons_of_mem _ hm2)
    obtain ⟨ho, hl, hr⟩ := h m (List.mem_cons_self _ _)
    obtain ⟨off, hoff⟩ := Option.isSome_iff_exists.mp ho
    obtain ⟨len, hlen⟩ := Option.isSome_iff_exists.mp hl
    rw [applyJGo]
    split
    · exact ih _ _ hrest
    · cases hrep : m.replacements with
      | nil => exact ih _ _ hrest
      | cons r rs =>
        obtain ⟨v, hv⟩ := Option.isSome_iff_exists.mp
          (hr r (by rw [hrep]; exact List.mem_cons_self _ _))
        simp only [hoff, hlen, hv]
        split
        · exact ih _ _ hrest
        · split
          · exact ih _ _ hrest
          · exact ih _ _ hrest

/-- Witness for C10: negative, out-of-range, overlapping and unsorted
offsets all yield a result. -/
theorem apply_misspellings_only_total_on_wellformed_witness :
    (∀ m ∈ ([⟨some "misspelling", [⟨some "X"⟩], some 100, some 5⟩,
        ⟨some "misspelling", [⟨some "Y"⟩], some (-7), some 3⟩,
        ⟨some "misspelling", [⟨some "Z"⟩], some 1, some (-2)⟩] :
          List LTMatchJ),
      m.offset.isSome ∧ m.length.isSome ∧
        ∀ r ∈ m.replacements, r.value.isSome) ∧
    (applyJGo "abcde".data 0
      [⟨some "misspelling", [⟨some "X"⟩], some 100, some 5⟩,
       ⟨some "misspelling", [⟨some "Y"⟩], some (-7), some 3⟩,
       ⟨some "misspelling", [⟨some "Z"⟩], some 1, some (-2)⟩]).isSome :=
  ⟨by decide,
   apply_misspellings_only_total_on_wellformed "abcde".data 0 _ (by decide)⟩

end Spellfix

namespace Spellfix

/-- C7 (counterexample): with a configured maximum of 2, the all-blank
text of three newlines yields one oversized chunk that is the blank-line
separator run of the split, not a paragraph: both paragraphs are empty
and within the bound. -/
theorem chunk_oversize_separator_counterexample :
    chunk_paragraphs 2 "\n\n\n" = ["\n\n\n"] ∧
    2 < ("\n\n\n" : String).length ∧
    paragraphsOf "\n\n\n" = ["", ""] ∧
    ∀ p ∈ paragraphsOf "\n\n\n", p.length ≤ 2 ∧ p ≠ "\n\n\n" := by
  exact ⟨by decide, by decide, by decide, by decide⟩

/-- C7 (amended): concatenating the chunks in order reproduces the text
exactly; the chunks are the joins of consecutive groups of split parts
(paragraphs and blank-line separators), up to a dropped all-empty tail,
so no part — in particular no paragraph — is split across two chunks;
and a chunk exceeds the configured maximum only when it is a single
part (a paragraph or a blank-line separator run) that alone exceeds
the bound. -/
theorem chunk_paragraphs_lossless_aligned (maxChars : Nat) (text : String) :
    String.join (chunk_paragraphs maxChars text) = text ∧
    (∃ (gs : List (List String)) (rest : List String),
      chunk_paragraphs maxChars text = gs.map String.join ∧
      gs.flatten ++ rest = splitSep text ∧ ∀ r ∈ rest, r = "") ∧
    ∀ c ∈ chunk_paragraphs maxChars text,
      c.length ≤ maxChars ∨ c ∈ splitSep text := by
  refine ⟨?_, ?_, ?_⟩
  · rw [chunk_paragraphs, chunkGo_concat, splitSep_join, String.empty_append]
  · obtain ⟨rest, h1, h2⟩ := chunkGrp_join maxChars (splitSep text) []
    refine ⟨chunkGrp maxChars (splitSep text) [], rest, ?_, by simpa using h1, h2⟩
    rw [chunk_paragraphs]
    have hmap := chunkGrp_map maxChars (splitSep text) []
    rw [show String.join [] = "" from rfl] at hmap
    exact hmap
  · intro c hc
    exact chunkGo_size maxChars (splitSep text) (splitSep text) ""
      (fun p hp => hp) (Or.inl (Nat.zero_le _)) c hc

/-- Witness for the amended C7 at a concrete input. -/
theorem chunk_paragraphs_lossless_aligned_witness :
    String.join (chunk_paragraphs 5 "ab\n\ncd") = "ab\n\ncd" ∧
    (("cd" : String).length ≤ 5 ∨ ("cd" : String) ∈ splitSep "ab\n\ncd") :=
  ⟨(chunk_paragraphs_lossless_aligned 5 "ab\n\ncd").1,
   (chunk_paragraphs_lossless_aligned 5 "ab\n\ncd").2.2 "cd" (by decide)⟩

/-- C8: `safe_spacing_cleanup` is idempotent: one pass leaves the text
in a normal form (no whitespace before punctuation, no
punctuation-alphanumeric adjacency, no adjacent spaces/tabs) on which
every one of its five substitutions is the identity. -/
theorem safe_spacing_cleanup_idempotent (s : String) :
    safe_spacing_cleanup (safe_spacing_cleanup s) = safe_spacing_cleanup s :=
  congrArg String.mk (cleanupL_idem s.data)

/-- C9: If the external call errors on the chunk at position `i`, that
chunk is emitted unchanged at position `i` and its diagnostic appears
on the error stream, while the output has one entry per chunk, every
chunk being mapped through its own (order-preserving) per-chunk step. -/
theorem per_chunk_failure_containment
    (lt : String → Except String (List LTMatchJ)) (chunks : List String)
    (i : Nat) (ch : String) (e : String)
    (hi : chunks[i]? = some ch) (hf : lt ch = .error e) :
    (processChunks lt chunks).1.length = chunks.length ∧
    (processChunks lt chunks).1[i]? = some ch ∧
    diagMsg e ∈ (processChunks lt chunks).2 ∧
    ∀ (j : Nat) (cj : String), chunks[j]? = some cj →
      (processChunks lt chunks).1[j]? = some (chunkStep lt cj).1 := by
  have hfst := processChunks_fst lt chunks
  have hstep : chunkStep lt ch = (ch, [diagMsg e]) := by
    rw [chunkStep, hf]
  refine ⟨?_, ?_, ?_, ?_⟩
  · rw [hfst, List.length_map]
  · rw [hfst, List.getElem?_map, hi]
    rw [Option.map_some', hstep]
  · refine processChunks_diag_mem lt (getElem?_mem hi) ?_
    rw [hstep]
    exact List.mem_singleton_self _
  · intro j cj hj
    rw [hfst, List.getElem?_map, hj, Option.map_some']

/-- Witness for C9: a two-chunk run where the service fails on the
second chunk. -/
theorem per_chunk_failure_containment_witness :
    (processChunks (fun s => if s = "bb" then .error "boom" else .ok [])
        ["aa", "bb"]).1.length = (["aa", "bb"] : List String).length ∧
    (processChunks (fun s => if s = "bb" then .error "boom" else .ok [])
        ["aa", "bb"]).1[1]? = some "bb" ∧
    diagMsg "boom" ∈ (processChunks
        (fun s => if s = "bb" then .error "boom" else .ok []) ["aa", "bb"]).2 ∧
    ∀ (j : Nat) (cj : String), (["aa", "bb"] : List String)[j]? = some cj →
      (processChunks (fun s => if s = "bb" then .error "boom" else .ok [])
        ["aa", "bb"]).1[j]? =
        some (chunkStep (fun s => if s = "bb" then .error "boom" else .ok []) cj).1 :=
  per_chunk_failure_containment
    (fun s => if s = "bb" then .error "boom" else .ok []) ["aa", "bb"] 1 "bb"
    "boom" (by decide) rfl

end Spellfix

namespace Spellfix

set_option maxRecDepth 100000

/-- C1 (code bug): the protect/unprotect round trip fails.  On
"see/www.foo.com", `URL_RE` protects "www.foo.com" as placeholder 0,
then `PATH_RE` (whose `[^\s]+` also matches the placeholder sentinel
U+E000) swallows "/" together with placeholder 0 into placeholder 1;
`unprotect` replaces the keys in insertion order, so key 0 — occurring
only inside the value of key 1 — is restored too early, and an
unresolved placeholder survives to the output: the round trip does not
reproduce the input, and the protected URL substring is lost. -/
theorem protect_unprotect_roundtrip_failure :
    unprotect (protect "see/www.foo.com").1 (protect "see/www.foo.com").2 =
      "see/\uE0000\uE000" ∧
    unprotect (protect "see/www.foo.com").1 (protect "see/www.foo.com").2 ≠
      "see/www.foo.com" ∧
    strHasSubstr
      (unprotect (protect "see/www.foo.com").1 (protect "see/www.foo.com").2)
      "www.foo.com" = false := by
  exact ⟨by decide, by decide, by decide⟩

/-- C2 (code bug): a span already replaced by a placeholder is
re-matched in whole by a later protection pattern.  On
"see/www.foo.com", the mapping records key 1 whose value contains the
placeholder key 0 verbatim, and key 0 no longer occurs in the
protected text. -/
theorem protect_placeholder_rematch :
    protect "see/www.foo.com" =
      ("see\uE0001\uE000",
        [("\uE0000\uE000", "www.foo.com"),
         ("\uE0001\uE000", "/\uE0000\uE000")]) ∧
    strHasSubstr "/\uE0000\uE000" "\uE0000\uE000" = true ∧
    strHasSubstr "see\uE0001\uE000" "\uE0000\uE000" = false := by
  exact ⟨by decide, by decide, by decide⟩

/-- C3 (code bug): `fix_dot_joined_words` splits an unprotected
domain-like string, contrary to its own docstring ("never
domains/IPs/versions/abbrev") — the exclusion patterns
`DOMAIN_LIKE_RE`, `IP_RE`, `VERSION_RE`, `ABBREV_RE` are defined but
never consulted.  Plain prose joins are split; IP addresses, numeric
versions and single-letter abbreviation chains are left alone only
because the splitting pattern requires two alphabetic runs of length
at least 2. -/
theorem fix_dot_joined_words_domain_split :
    fix_dot_joined_words "Visit example.com today" =
      "Visit example com today" ∧
    fix_dot_joined_words "word.another" = "word another" ∧
    fix_dot_joined_words "U.S.A. 1.2.3 192.168.0.1" =
      "U.S.A. 1.2.3 192.168.0.1" := by
  exact ⟨by decide, by decide, by decide⟩

end Spellfix
